/-
Verification of the Downly download manager's core logic.

This file gives a shallow embedding, in Lean 4, of the pure parts of the
Downly code base (a Tk GUI wrapper around yt-dlp/ffmpeg):

* `src/downly/utils/time_utils.py`  — `TimeValidator`, `FilenameUtils`
* `src/downly/core/url_validator.py`— `URLValidator` (with the patterns of
  `src/downly/config.py`)
* `src/downly/core/preset_manager.py` — `PresetManager` (with `PRESETS`)
* `src/downly/core/download_engine.py` — command building, output-line
  classification, and the exit-code / cancellation logic
* `src/downly/ui/progress_panel.py` — `ProgressPanel.set_progress`

Modelling conventions:
* Python strings are modelled as `List Char` (named `Str` below), so that
  character-level reasoning is by list induction.  Character classes of the
  regular expressions (`\d`, `\w`, `\s`) are modelled over ASCII.
* Python floats are modelled as `ℚ`: every numeric token the code parses is
  a decimal literal, and the code only compares/forwards such values.
* The handful of regular expressions the code uses are hand-compiled to
  deterministic scanning functions; in each case the determinisation is
  justified in the doc comment of the function.
* Stateful/subprocess code is modelled as pure transition functions that
  return the list of callbacks (events) the code would fire.
-/

import Mathlib

/-! ## Basic string machinery (Python `str` as `List Char`) -/

/-- Python strings modelled as lists of characters. -/
abbrev Str := List Char

/-- The characters Python's `str.strip()` / `str.split()` treat as
whitespace (ASCII fragment): space, tab, newline, carriage return,
vertical tab, form feed. -/
def isPyWS (c : Char) : Bool :=
  c = ' ' || c = '\t' || c = '\n' || c = '\r' || c = '\x0b' || c = '\x0c'

/-- Drop leading Python whitespace (left part of `str.strip()`). -/
def stripLeft (s : Str) : Str := s.dropWhile isPyWS

/-- Drop trailing Python whitespace (right part of `str.strip()`). -/
def stripRight (s : Str) : Str := (s.reverse.dropWhile isPyWS).reverse

/-- Python `str.strip()`. -/
def pyStrip (s : Str) : Str := stripRight (stripLeft s)

/-- Python `str.lower()` (ASCII fragment). -/
def lowerStr (s : Str) : Str := s.map Char.toLower

/-- Python `str.upper()` (ASCII fragment). -/
def upperStr (s : Str) : Str := s.map Char.toUpper

/-- The regex class `\d` (ASCII decimal digit). -/
def isDigitChar (c : Char) : Bool := c.isDigit

/-- Numeric value of a decimal digit character. -/
def digitVal (c : Char) : Nat := c.toNat - 48

/-- Python `int()` on a string of decimal digits. -/
def parseNat (s : Str) : Nat := s.foldl (fun a c => a * 10 + digitVal c) 0

/-- Decimal rendering of a natural number (Python `str(n)` / `f"{n:d}"`). -/
def natToStr (n : Nat) : Str := Nat.toDigits 10 n

/-- Python `f"{n:02d}"`: decimal rendering zero-padded to width 2. -/
def pad2 (n : Nat) : Str := if n < 10 then '0' :: natToStr n else natToStr n

/-- Decimal rendering of an integer (Python `f"{i}"`). -/
def intToStr (i : Int) : Str := (toString i).toList

/-- Python `str.split(sep)` for a single-character separator, as used with
`':'` by the time patterns (here used only through
`validateTimeFormat`, whose three regexes are equivalent to a shape test
on the colon-separated fields, see its doc comment). -/
def splitOnChar (sep : Char) : Str → List Str
  | [] => [[]]
  | c :: cs =>
    match splitOnChar sep cs with
    | a :: rest => if c = sep then [] :: a :: rest else (c :: a) :: rest
    | [] => [[c]]

/-! ## `TimeValidator` (src/downly/utils/time_utils.py) -/

/-- Result of `TimeValidator.validate_time_format`, which in Python returns
`None` (empty/placeholder input), `False` (invalid) or an `int`. -/
inductive TimeResult where
  | noneVal : TimeResult
  | invalid : TimeResult
  | seconds : Nat → TimeResult
deriving DecidableEq, Repr

/-- `TimeValidator.validate_time_format`.

The three anchored patterns `^(\d{1,2}):(\d{2}):(\d{2})$`,
`^(\d{1,2}):(\d{2})$`, `^(\d+)$` are tried in order on the stripped input.
Since every group is digit-only, a pattern matches exactly when splitting
the input on `':'` yields the corresponding number of all-digit fields of
the required lengths; the three cases are mutually exclusive (they differ
in the number of fields), so trying them in order equals the shape test
below. -/
def validateTimeFormat (timeStr : Str) : TimeResult :=
  if timeStr = [] ∨ pyStrip timeStr = [] ∨ pyStrip timeStr = "HH:MM:SS".toList then
    TimeResult.noneVal
  else
    let t := pyStrip timeStr
    match splitOnChar ':' t with
    | [h, m, s] =>
      if 1 ≤ h.length ∧ h.length ≤ 2 ∧ h.all isDigitChar ∧
         m.length = 2 ∧ m.all isDigitChar ∧ s.length = 2 ∧ s.all isDigitChar then
        if 60 ≤ parseNat m ∨ 60 ≤ parseNat s then TimeResult.invalid
        else TimeResult.seconds (parseNat h * 3600 + parseNat m * 60 + parseNat s)
      else TimeResult.invalid
    | [m, s] =>
      if 1 ≤ m.length ∧ m.length ≤ 2 ∧ m.all isDigitChar ∧
         s.length = 2 ∧ s.all isDigitChar then
        if 60 ≤ parseNat s then TimeResult.invalid
        else TimeResult.seconds (parseNat m * 60 + parseNat s)
      else TimeResult.invalid
    | [d] =>
      if d ≠ [] ∧ d.all isDigitChar then TimeResult.seconds (parseNat d)
      else TimeResult.invalid
    | _ => TimeResult.invalid

/-- `TimeValidator.format_seconds_to_time`:
`hours, remainder = divmod(seconds, 3600)`; `minutes, seconds = divmod(remainder, 60)`;
`f"{hours:02d}:{minutes:02d}:{seconds:02d}"`. -/
def formatSecondsToTime (n : Nat) : Str :=
  pad2 (n / 3600) ++ ':' :: (pad2 ((n % 3600) / 60) ++ ':' :: pad2 ((n % 3600) % 60))

/-! ## `FilenameUtils.sanitize_filename` (src/downly/utils/time_utils.py) -/

/-- The invalid filename characters removed by `sanitize_filename`
(Python's `invalid_chars = '<>:"/\\|?*'`). -/
def invalidFileChars : Str := "<>:\"/\\|?*".toList

/-- `filename.translate(str.maketrans('', '', invalid_chars))`: delete every
invalid character. -/
def removeInvalid (s : Str) : Str := s.filter (fun c => c ∉ invalidFileChars)

/-- Python `str.replace(a, b)` for single characters. -/
def replaceAllChar (a b : Char) (s : Str) : Str := s.map (fun c => if c = a then b else c)

/-- Python `str.replace('…', '...')`: one character expands to three. -/
def expandEllipsis (s : Str) : Str :=
  s.foldr (fun c acc => if c = '…' then '.' :: '.' :: '.' :: acc else c :: acc) []

/-- Helper for Python's no-argument `str.split()`: `acc` is the current word
(reversed); whitespace runs separate words and empty words are dropped. -/
def pySplitAux : Str → Str → List Str
  | [], acc => if acc = [] then [] else [acc.reverse]
  | c :: cs, acc =>
    if isPyWS c then
      if acc = [] then pySplitAux cs [] else acc.reverse :: pySplitAux cs []
    else pySplitAux cs (c :: acc)

/-- Python's no-argument `str.split()`. -/
def pySplit (s : Str) : List Str := pySplitAux s []

/-- Python `' '.join(words)`. -/
def joinSpace : List Str → Str
  | [] => []
  | [w] => w
  | w :: ws => w ++ ' ' :: joinSpace ws

/-- The character-replacement phase of `sanitize_filename`: delete invalid
characters, then en/em dash to hyphen, double quote to single quote (a no-op,
`'"'` having been deleted), and ellipsis to `"..."`. -/
def preClean (filename : Str) : Str :=
  expandEllipsis (replaceAllChar '"' '\'' (replaceAllChar '—' '-'
    (replaceAllChar '–' '-' (removeInvalid filename))))

/-- `FilenameUtils.sanitize_filename`: character cleanup, whitespace
normalisation via `' '.join(name.split())` plus `strip()`, fallback to
`"video"` when empty, and truncation to 200 characters with a final
`strip()`. -/
def sanitizeFilename (filename : Str) : Str :=
  let joined := pyStrip (joinSpace (pySplit (preClean filename)))
  let base := if joined = [] then "video".toList else joined
  if 200 < base.length then pyStrip (base.take 200) else base

/-- Well-formedness of the word list produced by `pySplit`: every word is
non-empty and whitespace-free. -/
def goodWords (ll : List Str) : Prop := ∀ w ∈ ll, w ≠ [] ∧ ∀ c ∈ w, isPyWS c = false

/-! ## `URLValidator` (src/downly/core/url_validator.py, patterns from config.py) -/

/-- The regex class `[\w-]` (ASCII fragment): letters, digits, underscore,
hyphen. -/
def isWordDash (c : Char) : Bool := c.isAlpha || c.isDigit || c = '_' || c = '-'

/-- Consume a literal prefix, or fail. -/
def dropLit (lit : Str) (s : Str) : Option Str :=
  if lit <+: s then some (s.drop lit.length) else none

/-- The optional group `(?:https?://)?`.  Greedy, deterministic consumption
is exact for these patterns: whenever the group consumes `https://` or
`http://`, the alternative of skipping it cannot succeed, because every
continuation (`www.`, `m.`, `youtube.com…`, `youtu.be/`) starts with `w`,
`m` or `y`, never `h`; and `https://` vs `http://` are distinguished by the
character after `http`. -/
def dropScheme (s : Str) : Str :=
  if ("https://".toList) <+: s then s.drop 8
  else if ("http://".toList) <+: s then s.drop 7
  else s

/-- The optional group `(?:www\.)?`; deterministic because the continuation
starts with `y`, never `w`. -/
def dropWwwDot (s : Str) : Str := if ("www.".toList) <+: s then s.drop 4 else s

/-- The optional group `(?:m\.)?`; deterministic because the continuation
starts with `y`, never `m`. -/
def dropMDot (s : Str) : Str := if ("m.".toList) <+: s then s.drop 2 else s

/-- `[\w-]+` with nothing after it in the pattern and no end anchor
(`re.match` only anchors at the start): one word character suffices. -/
def headWordDash (s : Str) : Bool :=
  match s with
  | [] => false
  | c :: _ => isWordDash c

/-- A literal followed by `[\w-]+` (unanchored at the end). -/
def litThenWord (lit : Str) (s : Str) : Bool :=
  match dropLit lit s with
  | some r => headWordDash r
  | none => false

/-- The six `YOUTUBE_PATTERNS` of config.py as matchers on the lowercased
input (modelling `re.match(pattern, url, re.IGNORECASE)`, which anchors at
the start only):
`(?:https?://)?(?:www\.)?youtube\.com/watch\?v=[\w-]+`,
`…/playlist\?list=[\w-]+`, `(?:https?://)?youtu\.be/[\w-]+`,
`…/shorts/[\w-]+`, `…/live/[\w-]+`,
`(?:https?://)?(?:m\.)?youtube\.com/watch\?v=[\w-]+`. -/
def youtubePatterns : List (Str → Bool) :=
  [ fun u => litThenWord ("youtube.com/watch?v=".toList) (dropWwwDot (dropScheme (lowerStr u))),
    fun u => litThenWord ("youtube.com/playlist?list=".toList) (dropWwwDot (dropScheme (lowerStr u))),
    fun u => litThenWord ("youtu.be/".toList) (dropScheme (lowerStr u)),
    fun u => litThenWord ("youtube.com/shorts/".toList) (dropWwwDot (dropScheme (lowerStr u))),
    fun u => litThenWord ("youtube.com/live/".toList) (dropWwwDot (dropScheme (lowerStr u))),
    fun u => litThenWord ("youtube.com/watch?v=".toList) (dropMDot (dropScheme (lowerStr u))) ]

/-- `URLValidator.is_valid_youtube_url`: reject empty (falsy) input, strip,
reject empty again, then `any(re.match(pattern, url, re.IGNORECASE) for
pattern in self.patterns)`. -/
def isValidYoutubeUrl (url : Str) : Bool :=
  if url = [] then false
  else
    let u := pyStrip url
    if u = [] then false
    else youtubePatterns.any (fun m => m u)

/-! ## `PresetManager` (src/downly/core/preset_manager.py, PRESETS from config.py) -/

/-- One preset configuration: the `{"format", "video_quality",
"audio_quality"}` dictionaries of `PRESETS`. -/
structure PresetConfig where
  format : String
  videoQuality : String
  audioQuality : String
deriving DecidableEq, Repr

/-- Association-list lookup, modelling Python `dict.get` (a key occurs at
most once in the lists we build). -/
def getA {β : Type} (k : String) : List (String × β) → Option β
  | [] => none
  | (a, b) :: t => if a = k then some b else getA k t

/-- Association-list update, modelling Python `dict.__setitem__`. -/
def setA {β : Type} (k : String) (v : β) : List (String × β) → List (String × β)
  | [] => [(k, v)]
  | (a, b) :: t => if a = k then (a, v) :: t else (a, b) :: setA k v t

/-- The `"Video"` row of `PRESETS` in config.py. -/
def videoPresets : List (String × PresetConfig) :=
  [("High", ⟨"mp4", "Highest Video Quality", "Highest Audio Quality"⟩),
   ("Standard", ⟨"mp4", "720p", "192kbps"⟩),
   ("Low", ⟨"mp4", "240p", "64kbps"⟩)]

/-- The `"Audio"` row of `PRESETS` in config.py. -/
def audioPresets : List (String × PresetConfig) :=
  [("High", ⟨"mp3", "---", "Highest Audio Quality"⟩),
   ("Standard", ⟨"mp3", "---", "192kbps"⟩),
   ("Low", ⟨"mp3", "---", "64kbps"⟩)]

/-- `PresetManager.get_preset` on a freshly constructed manager (whose
`self.presets = PRESETS.copy()` has the same contents as `PRESETS`):
`self.presets.get(format_type, {}).get(quality)`. -/
def getPresetDefault (formatType quality : String) : Option PresetConfig :=
  getA quality ((getA formatType [("Video", videoPresets), ("Audio", audioPresets)]).getD [])

/-- Heap of mutable inner dictionaries: Python dict objects addressed by
identity.  `PRESETS.copy()` is a shallow copy, so the outer dict is copied
but the inner dict objects (heap cells) stay shared. -/
structure PresetHeap where
  cells : Nat → List (String × PresetConfig)
  nextId : Nat

/-- The initial heap: cell 0 holds the `"Video"` inner dict of the global
`PRESETS`, cell 1 the `"Audio"` one. -/
def initHeap : PresetHeap :=
  ⟨fun i => if i = 0 then videoPresets else if i = 1 then audioPresets else [], 2⟩

/-- The global `PRESETS` dict: format type to inner-dict cell. -/
def presetsGlobal : List (String × Nat) := [("Video", 0), ("Audio", 1)]

/-- `PresetManager.__init__` / `reset_to_defaults`:
`self.presets = PRESETS.copy()` — a fresh outer list sharing the inner
cells of the global `PRESETS`. -/
def presetManagerInit : List (String × Nat) := presetsGlobal

/-- `PresetManager.get_preset` against the heap:
`self.presets.get(format_type, {}).get(quality)`. -/
def getPresetH (h : PresetHeap) (mgr : List (String × Nat))
    (formatType quality : String) : Option PresetConfig :=
  match getA formatType mgr with
  | none => none
  | some cid => getA quality (h.cells cid)

/-- `PresetManager.add_preset`: if the format type is present, mutate the
shared inner cell in place (`self.presets[format_type][quality] =
config.copy()`); otherwise allocate a fresh inner dict visible only to this
manager. -/
def addPresetH (h : PresetHeap) (mgr : List (String × Nat))
    (formatType quality : String) (config : PresetConfig) :
    PresetHeap × List (String × Nat) :=
  match getA formatType mgr with
  | some cid =>
    ({ h with cells := fun i => if i = cid then setA quality config (h.cells cid)
                                else h.cells i }, mgr)
  | none =>
    (⟨fun i => if i = h.nextId then [(quality, config)] else h.cells i, h.nextId + 1⟩,
     setA formatType h.nextId mgr)

/-! ## Output-line scanners (regexes of download_engine.py / progress_panel.py)

Each Python `re.search` is compiled to a scan that tries the pattern at
every start position, leftmost first, exactly as `re.search` does.  In all
four patterns every quantified piece is forced-maximal: shrinking a greedy
`\d+`, `\s+` or `[^\s]+` leaves a character of the same class next, which
can never match the following literal (`%`, `.`, `:`, `of`) — so the
deterministic maximal-munch scan equals the backtracking semantics. -/

/-- `(\d+(?:\.\d+)?)%` tried at the start of `s`; on success, the float
value of group 1 (a decimal literal, represented exactly in `ℚ`). -/
def percentAt (s : Str) : Option ℚ :=
  let d1 := s.takeWhile isDigitChar
  let r1 := s.dropWhile isDigitChar
  if d1 = [] then none
  else
    match r1 with
    | '%' :: _ => some (parseNat d1 : ℚ)
    | '.' :: r2 =>
      let d2 := r2.takeWhile isDigitChar
      let r3 := r2.dropWhile isDigitChar
      if d2 = [] then none
      else
        match r3 with
        | '%' :: _ => some ((parseNat d1 : ℚ) + (parseNat d2 : ℚ) / (10 : ℚ) ^ d2.length)
        | _ => none
    | _ => none

/-- `re.search(r'(\d+(?:\.\d+)?)%', line)` followed by `float(group(1))`. -/
def searchPercent : Str → Option ℚ
  | [] => none
  | c :: cs =>
    match percentAt (c :: cs) with
    | some q => some q
    | none => searchPercent cs

/-- `(\d+\.\d+)% of` tried at the start of `s`. -/
def etaPercentAt (s : Str) : Option ℚ :=
  let d1 := s.takeWhile isDigitChar
  let r1 := s.dropWhile isDigitChar
  if d1 = [] then none
  else
    match r1 with
    | '.' :: r2 =>
      let d2 := r2.takeWhile isDigitChar
      let r3 := r2.dropWhile isDigitChar
      if d2 = [] then none
      else if ("% of".toList) <+: r3 then
        some ((parseNat d1 : ℚ) + (parseNat d2 : ℚ) / (10 : ℚ) ^ d2.length)
      else none
    | _ => none

/-- `re.search(r'(\d+\.\d+)% of', line)`. -/
def searchEtaPercent : Str → Option ℚ
  | [] => none
  | c :: cs =>
    match etaPercentAt (c :: cs) with
    | some q => some q
    | none => searchEtaPercent cs

/-- `ETA (\d+:\d+)` tried at the start of `s`; the captured group. -/
def etaTimeAt (s : Str) : Option Str :=
  if ("ETA ".toList) <+: s then
    let t := s.drop 4
    let d1 := t.takeWhile isDigitChar
    let r1 := t.dropWhile isDigitChar
    if d1 = [] then none
    else
      match r1 with
      | ':' :: r2 =>
        let d2 := r2.takeWhile isDigitChar
        if d2 = [] then none else some (d1 ++ ':' :: d2)
      | _ => none
  else none

/-- `re.search(r'ETA (\d+:\d+)', status_line)`. -/
def searchEtaTime : Str → Option Str
  | [] => none
  | c :: cs =>
    match etaTimeAt (c :: cs) with
    | some r => some r
    | none => searchEtaTime cs

/-- `at\s+([^\s]+)` tried at the start of `s`; the captured group. -/
def speedAt (s : Str) : Option Str :=
  match s with
  | 'a' :: 't' :: r =>
    if r.takeWhile isPyWS = [] then none
    else
      let r2 := r.dropWhile isPyWS
      let tok := r2.takeWhile (fun c => !(isPyWS c))
      if tok = [] then none else some tok
  | _ => none

/-- `re.search(r'at\s+([^\s]+)', status_line)`. -/
def searchSpeed : Str → Option Str
  | [] => none
  | c :: cs =>
    match speedAt (c :: cs) with
    | some r => some r
    | none => searchSpeed cs

/-! ## `DownloadEngine._process_download_line` -/

/-- A callback fired by the download engine (the UI-facing events of
`set_callbacks`). -/
inductive DLEvent where
  | onProgress : ℚ → Str → Bool → DLEvent
  | onStatus : Str → DLEvent
  | onSuccess : DLEvent
  | onError : Str → DLEvent
deriving DecidableEq, Repr

/-- `DownloadEngine._process_download_line`: classify one stripped stdout
line and return the callbacks fired, in order.  The branches mirror the
`if/elif` chain of the source: `'[download]' in line` (with its inner
percent / ETA / Destination / Resuming cases), then
`line.startswith("frame=") or "ffmpeg" in line.lower()`, then
`"Merging" in line or "merger" in line.lower()`, then
`"ERROR:" in line.upper()`. -/
def processDownloadLine (line : Str) (isAudio : Bool)
    (startSeconds endSeconds : Option Nat) : List DLEvent :=
  if ("[download]".toList) <:+: line then
    match searchPercent line with
    | some percent => [DLEvent.onProgress percent line isAudio]
    | none =>
      if ("ETA".toList) <:+: line then
        match searchEtaPercent line with
        | some percent => [DLEvent.onProgress percent line isAudio]
        | none => []
      else if ("Destination".toList) <:+: line then
        [DLEvent.onStatus ("Preparing file...".toList)]
      else if ("Resuming".toList) <:+: line then
        [DLEvent.onStatus ("Resuming download...".toList)]
      else []
  else if ("frame=".toList) <+: line ∨ ("ffmpeg".toList) <:+: lowerStr line then
    (if startSeconds.isSome ∨ endSeconds.isSome then
      [DLEvent.onStatus ("Trimming video...".toList)]
    else
      [DLEvent.onStatus ("Processing video...".toList)])
    ++ [DLEvent.onProgress 90 line isAudio]
  else if ("Merging".toList) <:+: line ∨ ("merger".toList) <:+: lowerStr line then
    [DLEvent.onStatus ("Merging audio and video...".toList),
     DLEvent.onProgress 95 line isAudio]
  else if ("ERROR:".toList) <:+: upperStr line then
    if ("conversion failed".toList) <:+: lowerStr line ∨
        ("merger".toList) <:+: lowerStr line then
      [DLEvent.onStatus ("Format conversion error detected...".toList)]
    else []
  else []

/-- The `on_progress` calls among a list of events. -/
def progressEvents (evs : List DLEvent) : List (ℚ × Str × Bool) :=
  evs.filterMap fun e =>
    match e with
    | DLEvent.onProgress p l a => some (p, l, a)
    | _ => none

/-! ## `ProgressPanel.set_progress` (src/downly/ui/progress_panel.py) -/

/-- The text shown by the progress label after `set_progress`.  The label
renders `f"Downloading... {percent:.1f}%"` plus optional ETA/speed parts;
the model carries the numeric percent and the two captured groups instead
of the rendered text. -/
inductive PanelLabel where
  | extractingAudio : PanelLabel
  | downloadingEta : ℚ → Option Str → Option Str → PanelLabel
  | downloading : ℚ → PanelLabel
  | other : Str → PanelLabel
deriving DecidableEq, Repr

/-- The `ProgressPanel` state touched by `set_progress`. -/
structure ProgressPanelState where
  barValue : ℚ
  label : PanelLabel
  isMp3Finishing : Bool
deriving DecidableEq, Repr

/-- `ProgressPanel.set_progress`: clamp, store into the bar, then the
audio-finishing / ETA / plain branches of the source. -/
def setProgress (st : ProgressPanelState) (percent : ℚ) (statusLine : Str)
    (isAudio : Bool) : ProgressPanelState :=
  let p := max 0 (min percent 100)
  let st1 : ProgressPanelState := { st with barValue := p }
  if isAudio ∧ 100 ≤ p ∧ st1.isMp3Finishing = false then
    { st1 with isMp3Finishing := true, label := PanelLabel.extractingAudio }
  else if isAudio ∧ st1.isMp3Finishing = true then st1
  else if ("ETA".toList) <:+: statusLine then
    { st1 with label :=
        PanelLabel.downloadingEta p (searchEtaTime statusLine) (searchSpeed statusLine) }
  else
    { st1 with label := PanelLabel.downloading p }

/-! ## Exit-code surfacing and cancellation (download_engine.py) -/

/-- The error message of `_execute_download`'s wait path:
`f"Download failed with return code {returncode}"`. -/
def downloadFailMsg (returncode : Int) : Str :=
  ("Download failed with return code ".toList) ++ intToStr returncode

/-- The tail of `DownloadEngine._execute_download` after the read loop:
`if not self.is_downloading: return`, then `wait()`, then fire `on_success`
on return code 0 and `on_error` otherwise. -/
def finalizeDownload (isDownloading : Bool) (returncode : Int) : List DLEvent :=
  if isDownloading = false then []
  else if returncode = 0 then [DLEvent.onSuccess]
  else [DLEvent.onError (downloadFailMsg returncode)]

/-- An action taken on the child process by `cancel_download`'s
`terminate_process`. -/
inductive ProcAction where
  | terminate : ProcAction
  | kill : ProcAction
deriving DecidableEq, Repr

/-- `cancel_download`'s `terminate_process`, with the child abstracted as
`exitedAtPoll k` = "the k-th `poll()` call reports the process has exited"
(call 0 is the initial check, calls 1..10 the grace-period loop, call 11
the final check when the loop never broke; a process that has exited stays
exited, which the `||` with the loop polls encodes): terminate if running,
then kill only if still running after the grace period. -/
def terminateProcessActions (exitedAtPoll : Nat → Bool) : List ProcAction :=
  if exitedAtPoll 0 then []
  else if ((List.range 10).any fun i => exitedAtPoll (i + 1)) || exitedAtPoll 11 then
    [ProcAction.terminate]
  else [ProcAction.terminate, ProcAction.kill]

/-! ## `DownloadEngine._build_command` and helpers -/

/-- The settings fields consumed by `_build_command`
(`DownloadSettings` in download_engine.py). -/
structure DownloadSettings where
  url : Str
  format : Str
  videoQuality : Str
  audioQuality : Str
  downloadLocation : Str
  customFilename : Str
  downloadMetadata : Bool
  downloadSubtitles : Bool
deriving DecidableEq, Repr

/-- `AUDIO_QUALITY_MAP.get(audio_quality, "0")` from config.py (the keys
are pairwise distinct, so the `if` chain is the dict lookup). -/
def audioQualityValue (q : Str) : Str :=
  if q = ("Highest Audio Quality".toList) then "0".toList
  else if q = ("256kbps".toList) then "2".toList
  else if q = ("192kbps".toList) then "5".toList
  else if q = ("128kbps".toList) then "7".toList
  else if q = ("64kbps".toList) then "9".toList
  else "0".toList

/-- `DownloadEngine._add_audio_quality_option`. -/
def addAudioQualityOption (audioQuality : Str) : List Str :=
  if audioQuality ≠ ("Highest Audio Quality".toList) then
    ["--audio-quality".toList, audioQualityValue audioQuality]
  else []

/-- `DownloadEngine._add_time_sections`: the `--download-sections` pair for
`*start-end`, `*start-inf` or `*0-end`. -/
def timeSectionArgs (startSeconds endSeconds : Option Nat) : List Str :=
  match startSeconds, endSeconds with
  | some a, some b =>
    ["--download-sections".toList,
     '*' :: (formatSecondsToTime a ++ '-' :: formatSecondsToTime b)]
  | some a, none =>
    ["--download-sections".toList, '*' :: (formatSecondsToTime a ++ "-inf".toList)]
  | none, some b =>
    ["--download-sections".toList, '*' :: '0' :: '-' :: formatSecondsToTime b]
  | none, none => []

/-- `quality_selection.replace('p', '')` (drop every `p`). -/
def heightOf (qualitySelection : Str) : Str :=
  qualitySelection.filter (fun c => !(c = 'p'))

/-- `DownloadEngine._get_time_section_format_string`. -/
def getTimeSectionFormatString (videoFormat qualitySelection : Str) : Str :=
  if qualitySelection = ("Highest Video Quality".toList) then
    if videoFormat = ("mp4".toList) then
      ("bestvideo*[ext=mp4]+bestaudio[ext=m4a]/bestvideo*+bestaudio[ext=m4a]/bestvideo*+bestaudio/best".toList)
    else ("bestvideo*+bestaudio/best".toList)
  else
    let height := heightOf qualitySelection
    if videoFormat = ("mp4".toList) then
      ("bestvideo[height<=".toList) ++ height ++ (("][ext=mp4]+bestaudio[ext=m4a]/bestvideo[height<=".toList)
        ++ height ++ (("]+bestaudio[ext=m4a]/bestvideo[height<=".toList)
        ++ height ++ (("]+bestaudio/best[height<=".toList) ++ height ++ ("]".toList))))
    else
      ("bestvideo[height<=".toList) ++ height ++ (("]+bestaudio/best[height<=".toList)
        ++ height ++ ("]".toList))

/-- `DownloadEngine._get_video_format_string`. -/
def getVideoFormatString (videoFormat qualitySelection : Str) : Str :=
  if qualitySelection = ("Highest Video Quality".toList) then
    if videoFormat = ("mp4".toList) then
      ("bestvideo*[ext=mp4]+bestaudio[ext=m4a]/bestvideo*+bestaudio[ext=m4a]/bestvideo*+bestaudio/best".toList)
    else if videoFormat = ("webm".toList) then ("bestvideo*+bestaudio/best".toList)
    else ("bestvideo*+bestaudio/best".toList)
  else
    let height := heightOf qualitySelection
    if videoFormat = ("mp4".toList) then
      ("bestvideo[height<=".toList) ++ height ++ (("][ext=mp4]+bestaudio[ext=m4a]/bestvideo[height<=".toList)
        ++ height ++ (("]+bestaudio[ext=m4a]/bestvideo[height<=".toList)
        ++ height ++ (("]+bestaudio/best[height<=".toList) ++ height ++ ("]".toList))))
    else if videoFormat = ("webm".toList) then
      ("bestvideo[height<=".toList) ++ height ++ (("]+bestaudio/best[height<=".toList)
        ++ height ++ ("]".toList))
    else
      ("bestvideo[height<=".toList) ++ height ++ (("]+bestaudio/best[height<=".toList)
        ++ height ++ ("]".toList))

/-- `DownloadEngine._add_format_options`, as the list of arguments it
appends (time-sectioned downloads force MP4 with AAC audio, full downloads
branch on format and quality; the `--download-sections` pair comes last in
the time-sectioned branch, exactly as `_add_time_sections` is called
last). -/
def formatOptionArgs (settings : DownloadSettings) (isAudioDownload : Bool)
    (startSeconds endSeconds : Option Nat) : List Str :=
  if startSeconds.isSome ∨ endSeconds.isSome then
    (if isAudioDownload then
      ["-f".toList,
       ("bestaudio[ext=m4a]/bestaudio[acodec^=mp4a]/bestaudio[container^=mp4]/bestaudio/best".toList),
       "--extract-audio".toList, "--audio-format".toList, settings.format]
      ++ addAudioQualityOption settings.audioQuality
    else
      ["-f".toList, getTimeSectionFormatString ("mp4".toList) settings.videoQuality,
       "--merge-output-format".toList, "mp4".toList,
       "--remux-video".toList, "mp4".toList,
       "--postprocessor-args".toList, ("ffmpeg:-c:a aac -b:a 192k".toList)]
      ++ addAudioQualityOption settings.audioQuality)
    ++ timeSectionArgs startSeconds endSeconds
  else if isAudioDownload then
    ["-f".toList, "bestaudio/best".toList, "--extract-audio".toList,
     "--audio-format".toList, settings.format]
    ++ addAudioQualityOption settings.audioQuality
  else
    (if settings.videoQuality = ("Highest Video Quality".toList) then
      if settings.format = ("mp4".toList) then
        ["-f".toList,
         ("bestvideo*[ext=mp4]+bestaudio[ext=m4a]/bestvideo*+bestaudio[ext=m4a]/bestvideo*+bestaudio/best".toList),
         "--merge-output-format".toList, "mp4".toList,
         "--remux-video".toList, "mp4".toList,
         "--postprocessor-args".toList, ("ffmpeg:-c:a aac -b:a 192k".toList)]
      else if settings.format = ("webm".toList) then
        ["-f".toList, "bestvideo*+bestaudio/best".toList,
         "--merge-output-format".toList, "webm".toList]
      else []
    else
      ["-f".toList, getVideoFormatString settings.format settings.videoQuality]
      ++ (if settings.format = ("mp4".toList) then
          ["--merge-output-format".toList, "mp4".toList,
           "--remux-video".toList, "mp4".toList,
           "--postprocessor-args".toList, ("ffmpeg:-c:a aac -b:a 192k".toList)]
        else if settings.format = ("webm".toList) then
          ["--merge-output-format".toList, "webm".toList,
           "--postprocessor-args".toList, ("ffmpeg:-c:v libvpx-vp9 -c:a libopus".toList)]
        else []))
    ++ addAudioQualityOption settings.audioQuality

/-- The fixed head of `_build_command` (paths and AppConfig constants). -/
def baseCommandArgs (ytdlpPath downloadsFolder ffmpegPath : Str) : List Str :=
  [ytdlpPath, "-P".toList, downloadsFolder, "--ffmpeg-location".toList, ffmpegPath,
   "--progress".toList, "--no-part".toList, "--no-overwrites".toList,
   "--retries".toList, "3".toList, "--fragment-retries".toList, "3".toList,
   "--retry-sleep".toList, "2".toList, "--socket-timeout".toList, "30".toList,
   "--sleep-interval".toList, "1".toList, "--max-sleep-interval".toList, "3".toList,
   "--no-warnings".toList, "--ignore-errors".toList,
   "--abort-on-unavailable-fragment".toList, "--check-formats".toList,
   "--no-post-overwrites".toList, "--prefer-ffmpeg".toList,
   "--geo-bypass".toList, "--no-check-certificate".toList,
   "--concurrent-fragments".toList, "4".toList, "--buffer-size".toList, "16K".toList]

/-- The metadata options of `_build_command`. -/
def metadataArgs (downloadMetadata : Bool) : List Str :=
  if downloadMetadata then
    ["--write-info-json".toList, "--write-description".toList,
     "--write-thumbnail".toList, "--embed-metadata".toList]
  else
    ["--no-write-info-json".toList, "--no-write-description".toList,
     "--no-write-thumbnail".toList]

/-- The subtitle options of `_build_command`. -/
def subtitleArgs (downloadSubtitles : Bool) : List Str :=
  if downloadSubtitles then
    ["--write-subs".toList, "--write-auto-subs".toList, "--embed-subs".toList]
  else []

/-- The output-template options of `_build_command`. -/
def outputArgs (customFilename : Str) : List Str :=
  if customFilename ≠ [] then
    ["-o".toList, sanitizeFilename customFilename ++ (".%(ext)s".toList)]
  else
    ["-o".toList, ("%(title)s.%(ext)s".toList), "--restrict-filenames".toList]

/-- `DownloadEngine._build_command`.  `homeDownloads` stands for the
environment-derived
`os.path.join(os.path.expanduser("~"), AppConfig.DEFAULT_DOWNLOAD_LOCATION)`
used when `settings.download_location` is falsy (empty). -/
def buildCommand (settings : DownloadSettings) (ffmpegPath ytdlpPath homeDownloads : Str)
    (startSeconds endSeconds : Option Nat) : List Str :=
  let downloadsFolder :=
    if settings.downloadLocation ≠ [] then settings.downloadLocation else homeDownloads
  baseCommandArgs ytdlpPath downloadsFolder ffmpegPath
  ++ metadataArgs settings.downloadMetadata
  ++ subtitleArgs settings.downloadSubtitles
  ++ formatOptionArgs settings
      (settings.format = ("mp3".toList) ∨ settings.format = ("m4a".toList))
      startSeconds endSeconds
  ++ outputArgs settings.customFilename
  ++ [settings.url]

/-! ## Lemmas and claim theorems -/

/-! ## Lemmas about the basic string machinery -/

lemma dropWhile_all_false {p : Char → Bool} {s : Str} (h : ∀ c ∈ s, p c = false) :
    s.dropWhile p = s := by
  cases s with
  | nil => rfl
  | cons c cs => simp [List.dropWhile_cons, h c (List.mem_cons_self c cs)]

lemma pyStrip_eq_self {s : Str} (h : ∀ c ∈ s, isPyWS c = false) : pyStrip s = s := by
  have h1 : stripLeft s = s := dropWhile_all_false h
  have h2 : stripRight s = s := by
    unfold stripRight
    rw [dropWhile_all_false (fun c hc => h c (List.mem_reverse.mp hc)), List.reverse_reverse]
  unfold pyStrip
  rw [h1, h2]

lemma splitOnChar_ne_nil (sep : Char) (s : Str) : splitOnChar sep s ≠ [] := by
  induction s with
  | nil => simp [splitOnChar]
  | cons c cs ih =>
    unfold splitOnChar
    cases hsp : splitOnChar sep cs with
    | nil => exact absurd hsp ih
    | cons a rest => dsimp; split <;> simp

lemma splitOnChar_not_mem {sep : Char} : ∀ {a : Str}, sep ∉ a → splitOnChar sep a = [a] := by
  intro a
  induction a with
  | nil => intro _; rfl
  | cons c cs ih =>
    intro h
    have hc : ¬ (c = sep) := fun e => h (by simp [e])
    have ht : sep ∉ cs := fun e => h (List.mem_cons_of_mem _ e)
    unfold splitOnChar
    rw [ih ht]
    simp [hc]

lemma splitOnChar_append (sep : Char) (a r : Str) (ha : sep ∉ a) :
    splitOnChar sep (a ++ sep :: r) = a :: splitOnChar sep r := by
  induction a with
  | nil =>
    show splitOnChar sep (sep :: r) = [] :: splitOnChar sep r
    conv_lhs => rw [splitOnChar]
    cases hsp : splitOnChar sep r with
    | nil => exact absurd hsp (splitOnChar_ne_nil sep r)
    | cons x rest => simp
  | cons c cs ih =>
    have hc : ¬ (c = sep) := fun e => ha (by simp [e])
    have ht : sep ∉ cs := fun e => ha (List.mem_cons_of_mem _ e)
    show splitOnChar sep (c :: (cs ++ sep :: r)) = (c :: cs) :: splitOnChar sep r
    conv_lhs => rw [splitOnChar]
    rw [ih ht]
    simp [hc]

lemma ws_cases {c : Char} (h : isPyWS c = true) :
    c = ' ' ∨ c = '\t' ∨ c = '\n' ∨ c = '\r' ∨ c = '\x0b' ∨ c = '\x0c' := by
  simp only [isPyWS, Bool.or_eq_true, decide_eq_true_eq] at h
  tauto

lemma digit_not_ws {c : Char} (h : isDigitChar c = true) : isPyWS c = false := by
  cases hws : isPyWS c
  · rfl
  · rcases ws_cases hws with rfl | rfl | rfl | rfl | rfl | rfl <;> exact absurd h (by decide)

lemma digit_ne_colon {c : Char} (h : isDigitChar c = true) : c ≠ ':' := by
  intro e
  subst e
  exact absurd h (by decide)

lemma pad2_spec : ∀ k, k < 100 →
    (pad2 k).length = 2 ∧ (pad2 k).all isDigitChar = true ∧ parseNat (pad2 k) = k := by
  decide

/-! ## Lemmas computing `validateTimeFormat` on well-shaped inputs -/

lemma validate_shape_preamble {t : Str}
    (hdig : ∀ c ∈ t, isDigitChar c = true ∨ c = ':')
    (hne : t ≠ []) (hH : t ≠ "HH:MM:SS".toList) :
    pyStrip t = t ∧
      ¬ (t = [] ∨ pyStrip t = [] ∨ pyStrip t = "HH:MM:SS".toList) := by
  have hnws : ∀ c ∈ t, isPyWS c = false := by
    intro c hc
    rcases hdig c hc with hd | rfl
    · exact digit_not_ws hd
    · decide
  have hstrip : pyStrip t = t := pyStrip_eq_self hnws
  refine ⟨hstrip, ?_⟩
  rintro (h1 | h2 | h3)
  · exact hne h1
  · rw [hstrip] at h2; exact hne h2
  · rw [hstrip] at h3; exact hH h3

lemma validate_three (h m s : Str)
    (hh1 : 1 ≤ h.length) (hh2 : h.length ≤ 2) (hh3 : h.all isDigitChar = true)
    (hm1 : m.length = 2) (hm3 : m.all isDigitChar = true)
    (hs1 : s.length = 2) (hs3 : s.all isDigitChar = true) :
    validateTimeFormat (h ++ ':' :: (m ++ ':' :: s)) =
      if 60 ≤ parseNat m ∨ 60 ≤ parseNat s then TimeResult.invalid
      else TimeResult.seconds (parseNat h * 3600 + parseNat m * 60 + parseNat s) := by
  have hallh : ∀ c ∈ h, isDigitChar c = true := List.all_eq_true.mp hh3
  have hallm : ∀ c ∈ m, isDigitChar c = true := List.all_eq_true.mp hm3
  have halls : ∀ c ∈ s, isDigitChar c = true := List.all_eq_true.mp hs3
  have hdig : ∀ c ∈ h ++ ':' :: (m ++ ':' :: s), isDigitChar c = true ∨ c = ':' := by
    intro c hc
    rcases List.mem_append.mp hc with hch | hcr
    · exact Or.inl (hallh c hch)
    · rcases List.mem_cons.mp hcr with rfl | hcr2
      · exact Or.inr rfl
      · rcases List.mem_append.mp hcr2 with hcm | hcs
        · exact Or.inl (hallm c hcm)
        · rcases List.mem_cons.mp hcs with rfl | hcs2
          · exact Or.inr rfl
          · exact Or.inl (halls c hcs2)
  have hne : h ++ ':' :: (m ++ ':' :: s) ≠ [] := by simp
  have hH : h ++ ':' :: (m ++ ':' :: s) ≠ "HH:MM:SS".toList := by
    intro he
    cases h with
    | nil => simp at hh1
    | cons c0 cs0 =>
      rw [List.cons_append] at he
      have hc0 : c0 = 'H' := by
        have := congrArg List.head? he
        simpa using this
      have := hallh c0 (List.mem_cons_self c0 cs0)
      rw [hc0] at this
      exact absurd this (by decide)
  obtain ⟨hstrip, hcond⟩ := validate_shape_preamble hdig hne hH
  have hsplit : splitOnChar ':' (h ++ ':' :: (m ++ ':' :: s)) = [h, m, s] := by
    rw [splitOnChar_append ':' h _ (fun hmem => digit_ne_colon (hallh ':' hmem) rfl),
        splitOnChar_append ':' m _ (fun hmem => digit_ne_colon (hallm ':' hmem) rfl),
        splitOnChar_not_mem (fun hmem => digit_ne_colon (halls ':' hmem) rfl)]
  unfold validateTimeFormat
  rw [if_neg hcond, hstrip]
  dsimp only
  rw [hsplit]
  dsimp only
  rw [if_pos ⟨hh1, hh2, hh3, hm1, hm3, hs1, hs3⟩]

lemma validate_two (m s : Str)
    (hm1 : 1 ≤ m.length) (hm2 : m.length ≤ 2) (hm3 : m.all isDigitChar = true)
    (hs1 : s.length = 2) (hs3 : s.all isDigitChar = true) :
    validateTimeFormat (m ++ ':' :: s) =
      if 60 ≤ parseNat s then TimeResult.invalid
      else TimeResult.seconds (parseNat m * 60 + parseNat s) := by
  have hallm : ∀ c ∈ m, isDigitChar c = true := List.all_eq_true.mp hm3
  have halls : ∀ c ∈ s, isDigitChar c = true := List.all_eq_true.mp hs3
  have hdig : ∀ c ∈ m ++ ':' :: s, isDigitChar c = true ∨ c = ':' := by
    intro c hc
    rcases List.mem_append.mp hc with hcm | hcr
    · exact Or.inl (hallm c hcm)
    · rcases List.mem_cons.mp hcr with rfl | hcs
      · exact Or.inr rfl
      · exact Or.inl (halls c hcs)
  have hne : m ++ ':' :: s ≠ [] := by simp
  have hH : m ++ ':' :: s ≠ "HH:MM:SS".toList := by
    intro he
    cases m with
    | nil => simp at hm1
    | cons c0 cs0 =>
      rw [List.cons_append] at he
      have hc0 : c0 = 'H' := by
        have := congrArg List.head? he
        simpa using this
      have := hallm c0 (List.mem_cons_self c0 cs0)
      rw [hc0] at this
      exact absurd this (by decide)
  obtain ⟨hstrip, hcond⟩ := validate_shape_preamble hdig hne hH
  have hsplit : splitOnChar ':' (m ++ ':' :: s) = [m, s] := by
    rw [splitOnChar_append ':' m _ (fun hmem => digit_ne_colon (hallm ':' hmem) rfl),
        splitOnChar_not_mem (fun hmem => digit_ne_colon (halls ':' hmem) rfl)]
  unfold validateTimeFormat
  rw [if_neg hcond, hstrip]
  dsimp only
  rw [hsplit]
  dsimp only
  rw [if_pos ⟨hm1, hm2, hm3, hs1, hs3⟩]

/-! ## Claims C4 and C5: time validation and round-trip -/

/-- C4, counterexample to the claim as stated: the input `"90:00"` is accepted
by the colon-separated pattern `^(\d{1,2}):(\d{2})$` with a minutes field of
`90 ≥ 60`, yet `validate_time_format` does not return `False`: it returns
`5400` seconds (the code only range-checks the seconds field in the `MM:SS`
pattern, and its own error message advertises `"90:00"` as valid). -/
theorem c4_time_validation_counterexample :
    validateTimeFormat ("90:00".toList) = TimeResult.seconds 5400 ∧
      60 ≤ parseNat ("90".toList) := by
  decide

/-- C4 (amended): time parsing range-checks depend on the pattern.  For an
input accepted by the `H:MM:SS`/`HH:MM:SS` pattern, a minutes or seconds
field `≥ 60` yields `False`, and in-range fields yield the total seconds.
For an input accepted by the `MM:SS` pattern, only a seconds field `≥ 60`
yields `False`; the minutes field is unrestricted, and otherwise the result
is `minutes*60 + seconds`. -/
theorem c4_time_validation_amended :
    (∀ h m s : Str, 1 ≤ h.length → h.length ≤ 2 → h.all isDigitChar = true →
        m.length = 2 → m.all isDigitChar = true → s.length = 2 → s.all isDigitChar = true →
        (60 ≤ parseNat m ∨ 60 ≤ parseNat s) →
        validateTimeFormat (h ++ ':' :: (m ++ ':' :: s)) = TimeResult.invalid)
    ∧ (∀ h m s : Str, 1 ≤ h.length → h.length ≤ 2 → h.all isDigitChar = true →
        m.length = 2 → m.all isDigitChar = true → s.length = 2 → s.all isDigitChar = true →
        parseNat m < 60 → parseNat s < 60 →
        validateTimeFormat (h ++ ':' :: (m ++ ':' :: s)) =
          TimeResult.seconds (parseNat h * 3600 + parseNat m * 60 + parseNat s))
    ∧ (∀ m s : Str, 1 ≤ m.length → m.length ≤ 2 → m.all isDigitChar = true →
        s.length = 2 → s.all isDigitChar = true → 60 ≤ parseNat s →
        validateTimeFormat (m ++ ':' :: s) = TimeResult.invalid)
    ∧ (∀ m s : Str, 1 ≤ m.length → m.length ≤ 2 → m.all isDigitChar = true →
        s.length = 2 → s.all isDigitChar = true → parseNat s < 60 →
        validateTimeFormat (m ++ ':' :: s) =
          TimeResult.seconds (parseNat m * 60 + parseNat s)) := by
  refine ⟨?_, ?_, ?_, ?_⟩
  · intro h m s hh1 hh2 hh3 hm1 hm3 hs1 hs3 hr
    rw [validate_three h m s hh1 hh2 hh3 hm1 hm3 hs1 hs3, if_pos hr]
  · intro h m s hh1 hh2 hh3 hm1 hm3 hs1 hs3 hr1 hr2
    rw [validate_three h m s hh1 hh2 hh3 hm1 hm3 hs1 hs3, if_neg (by omega)]
  · intro m s hm1 hm2 hm3 hs1 hs3 hr
    rw [validate_two m s hm1 hm2 hm3 hs1 hs3, if_pos hr]
  · intro m s hm1 hm2 hm3 hs1 hs3 hr
    rw [validate_two m s hm1 hm2 hm3 hs1 hs3, if_neg (by omega)]

/-- C4 witness: the amended theorem applied at concrete inputs
`"01:60:00"`, `"01:02:03"`, `"90:60"`, `"90:00"`. -/
theorem c4_time_validation_witness :
    validateTimeFormat ("01:60:00".toList) = TimeResult.invalid ∧
    validateTimeFormat ("01:02:03".toList) = TimeResult.seconds 3723 ∧
    validateTimeFormat ("90:60".toList) = TimeResult.invalid ∧
    validateTimeFormat ("90:00".toList) = TimeResult.seconds 5400 := by
  refine ⟨?_, ?_, ?_, ?_⟩
  · exact c4_time_validation_amended.1 ("01".toList) ("60".toList) ("00".toList)
      (by decide) (by decide) (by decide) (by decide) (by decide) (by decide) (by decide)
      (Or.inl (by decide))
  · exact (c4_time_validation_amended.2.1 ("01".toList) ("02".toList) ("03".toList)
      (by decide) (by decide) (by decide) (by decide) (by decide) (by decide) (by decide)
      (by decide) (by decide)).trans (by decide)
  · exact c4_time_validation_amended.2.2.1 ("90".toList) ("60".toList)
      (by decide) (by decide) (by decide) (by decide) (by decide) (by decide)
  · exact (c4_time_validation_amended.2.2.2 ("90".toList) ("00".toList)
      (by decide) (by decide) (by decide) (by decide) (by decide) (by decide)).trans
      (by decide)

/-- C5: parsing and formatting round-trip.  For every `n < 360000` (hours fit
in two digits), `validate_time_format (format_seconds_to_time n) = n`; and for
every valid `H:MM:SS`/`HH:MM:SS` string with in-range minute/second fields,
`validate_time_format` returns `hours*3600 + minutes*60 + seconds`. -/
theorem c5_time_round_trip :
    (∀ n : Nat, n < 360000 →
        validateTimeFormat (formatSecondsToTime n) = TimeResult.seconds n)
    ∧ (∀ h m s : Str, 1 ≤ h.length → h.length ≤ 2 → h.all isDigitChar = true →
        m.length = 2 → m.all isDigitChar = true → s.length = 2 → s.all isDigitChar = true →
        parseNat m < 60 → parseNat s < 60 →
        validateTimeFormat (h ++ ':' :: (m ++ ':' :: s)) =
          TimeResult.seconds (parseNat h * 3600 + parseNat m * 60 + parseNat s)) := by
  constructor
  · intro n hn
    obtain ⟨hl1, ha1, hp1⟩ := pad2_spec (n / 3600) (by omega)
    obtain ⟨hl2, ha2, hp2⟩ := pad2_spec ((n % 3600) / 60) (by omega)
    obtain ⟨hl3, ha3, hp3⟩ := pad2_spec ((n % 3600) % 60) (by omega)
    unfold formatSecondsToTime
    rw [validate_three _ _ _ (by omega) (by omega) ha1 hl2 ha2 hl3 ha3]
    rw [if_neg (by rw [hp2, hp3]; omega)]
    rw [hp1, hp2, hp3]
    congr 1
    omega
  · intro h m s hh1 hh2 hh3 hm1 hm3 hs1 hs3 hr1 hr2
    rw [validate_three h m s hh1 hh2 hh3 hm1 hm3 hs1 hs3, if_neg (by omega)]

/-- C5 witness: the round-trip theorem applied at `n = 3723` and the direct
parse applied at `"01:02:03"`. -/
theorem c5_time_round_trip_witness :
    validateTimeFormat (formatSecondsToTime 3723) = TimeResult.seconds 3723 ∧
    validateTimeFormat ("01:02:03".toList) = TimeResult.seconds 3723 := by
  constructor
  · exact c5_time_round_trip.1 3723 (by decide)
  · exact (c5_time_round_trip.2 ("01".toList) ("02".toList) ("03".toList)
      (by decide) (by decide) (by decide) (by decide) (by decide) (by decide) (by decide)
      (by decide) (by decide)).trans (by decide)

/-! ## Lemmas for `sanitize_filename` -/

lemma expandEllipsis_cons (a : Char) (t : Str) :
    expandEllipsis (a :: t) =
      if a = '…' then '.' :: '.' :: '.' :: expandEllipsis t else a :: expandEllipsis t := rfl

lemma mem_removeInvalid {s : Str} {c : Char} (h : c ∈ removeInvalid s) :
    c ∈ s ∧ c ∉ invalidFileChars := by
  have h2 := List.mem_filter.mp h
  refine ⟨h2.1, ?_⟩
  simpa using h2.2

lemma mem_replaceAllChar {a b : Char} {s : Str} {c : Char} (h : c ∈ replaceAllChar a b s) :
    c = b ∨ c ∈ s := by
  obtain ⟨d, hd, hdc⟩ := List.mem_map.mp h
  by_cases hda : d = a
  · left; rw [if_pos hda] at hdc; exact hdc.symm
  · right; rw [if_neg hda] at hdc; exact hdc ▸ hd

lemma mem_expandEllipsis {s : Str} {c : Char} (h : c ∈ expandEllipsis s) :
    c = '.' ∨ c ∈ s := by
  induction s with
  | nil => simp [expandEllipsis] at h
  | cons a t ih =>
    rw [expandEllipsis_cons] at h
    by_cases ha : a = '…'
    · rw [if_pos ha] at h
      rcases List.mem_cons.mp h with rfl | h2
      · exact Or.inl rfl
      rcases List.mem_cons.mp h2 with rfl | h3
      · exact Or.inl rfl
      rcases List.mem_cons.mp h3 with rfl | h4
      · exact Or.inl rfl
      rcases ih h4 with h5 | h5
      · exact Or.inl h5
      · exact Or.inr (List.mem_cons_of_mem _ h5)
    · rw [if_neg ha] at h
      rcases List.mem_cons.mp h with rfl | h2
      · exact Or.inr (List.mem_cons_self _ _)
      rcases ih h2 with h5 | h5
      · exact Or.inl h5
      · exact Or.inr (List.mem_cons_of_mem _ h5)

lemma expandEllipsis_eq_self {s : Str} (h : '…' ∉ s) : expandEllipsis s = s := by
  induction s with
  | nil => rfl
  | cons a t ih =>
    rw [expandEllipsis_cons, if_neg (fun e => h (by rw [← e]; exact List.mem_cons_self a t)),
        ih (fun e => h (List.mem_cons_of_mem _ e))]

lemma replaceAllChar_eq_self {a b : Char} {s : Str} (h : a ∉ s) :
    replaceAllChar a b s = s := by
  induction s with
  | nil => rfl
  | cons c t ih =>
    have hc : ¬ (c = a) := fun e => h (by rw [← e]; exact List.mem_cons_self c t)
    show (if c = a then b else c) :: replaceAllChar a b t = c :: t
    rw [if_neg hc, ih (fun e => h (List.mem_cons_of_mem _ e))]

lemma pySplitAux_words : ∀ (s acc : Str), (∀ c ∈ acc, isPyWS c = false) →
    ∀ w ∈ pySplitAux s acc, w ≠ [] ∧ ∀ c ∈ w, isPyWS c = false := by
  intro s
  induction s with
  | nil =>
    intro acc hacc w hw
    rw [pySplitAux] at hw
    by_cases hacc0 : acc = []
    · rw [if_pos hacc0] at hw; simp at hw
    · rw [if_neg hacc0] at hw
      have hw2 : w = acc.reverse := by simpa using hw
      subst hw2
      exact ⟨by simpa using hacc0, fun d hd => hacc d (List.mem_reverse.mp hd)⟩
  | cons c cs ih =>
    intro acc hacc w hw
    rw [pySplitAux] at hw
    by_cases hws : isPyWS c = true
    · rw [if_pos hws] at hw
      by_cases hacc0 : acc = []
      · rw [if_pos hacc0] at hw
        exact ih [] (by simp) w hw
      · rw [if_neg hacc0] at hw
        rcases List.mem_cons.mp hw with rfl | hw2
        · exact ⟨by simpa using hacc0, fun d hd => hacc d (List.mem_reverse.mp hd)⟩
        · exact ih [] (by simp) w hw2
    · rw [if_neg hws] at hw
      refine ih (c :: acc) ?_ w hw
      intro d hd
      rcases List.mem_cons.mp hd with rfl | hd2
      · simpa using hws
      · exact hacc d hd2

lemma pySplitAux_subset : ∀ (s acc : Str), ∀ w ∈ pySplitAux s acc, ∀ c ∈ w, c ∈ s ∨ c ∈ acc := by
  intro s
  induction s with
  | nil =>
    intro acc w hw c hc
    rw [pySplitAux] at hw
    by_cases hacc0 : acc = []
    · rw [if_pos hacc0] at hw; simp at hw
    · rw [if_neg hacc0] at hw
      have hw2 : w = acc.reverse := by simpa using hw
      subst hw2
      exact Or.inr (List.mem_reverse.mp hc)
  | cons a cs ih =>
    intro acc w hw c hc
    rw [pySplitAux] at hw
    by_cases hws : isPyWS a = true
    · rw [if_pos hws] at hw
      by_cases hacc0 : acc = []
      · rw [if_pos hacc0] at hw
        rcases ih [] w hw c hc with h1 | h2
        · exact Or.inl (List.mem_cons_of_mem _ h1)
        · simp at h2
      · rw [if_neg hacc0] at hw
        rcases List.mem_cons.mp hw with rfl | hw2
        · exact Or.inr (List.mem_reverse.mp hc)
        · rcases ih [] w hw2 c hc with h1 | h2
          · exact Or.inl (List.mem_cons_of_mem _ h1)
          · simp at h2
    · rw [if_neg hws] at hw
      rcases ih (a :: acc) w hw c hc with h1 | h2
      · exact Or.inl (List.mem_cons_of_mem _ h1)
      · rcases List.mem_cons.mp h2 with rfl | h3
        · exact Or.inl (List.mem_cons_self _ _)
        · exact Or.inr h3

lemma pySplitAux_all_ws : ∀ (s : Str), (∀ c ∈ s, isPyWS c = true) →
    pySplitAux s [] = [] := by
  intro s
  induction s with
  | nil => intro _; rfl
  | cons a t ih =>
    intro h
    rw [pySplitAux, if_pos (h a (List.mem_cons_self a t)), if_pos rfl]
    exact ih (fun c hc => h c (List.mem_cons_of_mem _ hc))

lemma joinSpace_cons_cons (w x : Str) (xs : List Str) :
    joinSpace (w :: x :: xs) = w ++ ' ' :: joinSpace (x :: xs) := rfl

lemma joinSpace_ne_nil {ll : List Str} (h : goodWords ll) (hne : ll ≠ []) :
    joinSpace ll ≠ [] := by
  cases ll with
  | nil => exact absurd rfl hne
  | cons w ws =>
    cases ws with
    | nil => exact (h w (List.mem_cons_self w [])).1
    | cons x xs => rw [joinSpace_cons_cons]; simp

lemma joinSpace_head_not_ws {ll : List Str} (h : goodWords ll) :
    ∀ c, (joinSpace ll).head? = some c → isPyWS c = false := by
  cases ll with
  | nil => intro c hc; simp [joinSpace] at hc
  | cons w ws =>
    have hw := h w (List.mem_cons_self w ws)
    cases ws with
    | nil =>
      intro c hc
      cases w with
      | nil => exact absurd rfl hw.1
      | cons a t =>
        have hac : a = c := by simpa [joinSpace] using hc
        subst hac
        exact hw.2 a (List.mem_cons_self a t)
    | cons x xs =>
      intro c hc
      rw [joinSpace_cons_cons] at hc
      cases w with
      | nil => exact absurd rfl hw.1
      | cons a t =>
        rw [List.cons_append] at hc
        have hac : a = c := by simpa using hc
        subst hac
        exact hw.2 a (List.mem_cons_self a t)

lemma mem_of_getLastQ : ∀ {l : Str} {c : Char}, l.getLast? = some c → c ∈ l := by
  intro l c h
  obtain ⟨hne, hEq⟩ := List.mem_getLast?_eq_getLast (Option.mem_def.mpr h)
  rw [hEq]
  exact List.getLast_mem hne

lemma joinSpace_last_not_ws : ∀ (ll : List Str), goodWords ll →
    ∀ c, (joinSpace ll).getLast? = some c → isPyWS c = false := by
  intro ll
  induction ll with
  | nil => intro _ c hc; simp [joinSpace] at hc
  | cons w ws ih =>
    intro h c hc
    have hgood' : goodWords ws := fun u hu => h u (List.mem_cons_of_mem _ hu)
    cases ws with
    | nil =>
      have hw := h w (List.mem_cons_self w [])
      exact hw.2 c (mem_of_getLastQ hc)
    | cons x xs =>
      rw [joinSpace_cons_cons] at hc
      have hJne : joinSpace (x :: xs) ≠ [] := joinSpace_ne_nil hgood' (by simp)
      rw [List.getLast?_append_of_ne_nil _ (by simp)] at hc
      cases hJ : joinSpace (x :: xs) with
      | nil => exact absurd hJ hJne
      | cons j0 J' =>
        rw [hJ, List.getLast?_cons_cons] at hc
        exact ih hgood' c (by rw [hJ]; exact hc)

lemma joinSpace_mem : ∀ (ll : List Str) (c : Char), c ∈ joinSpace ll →
    c = ' ' ∨ ∃ w ∈ ll, c ∈ w := by
  intro ll
  induction ll with
  | nil => intro c hc; simp [joinSpace] at hc
  | cons w ws ih =>
    intro c hc
    cases ws with
    | nil => exact Or.inr ⟨w, List.mem_cons_self w [], hc⟩
    | cons x xs =>
      rw [joinSpace_cons_cons] at hc
      rcases List.mem_append.mp hc with h1 | h2
      · exact Or.inr ⟨w, List.mem_cons_self w _, h1⟩
      · rcases List.mem_cons.mp h2 with rfl | h3
        · exact Or.inl rfl
        · rcases ih c h3 with h4 | ⟨u, hu, hcu⟩
          · exact Or.inl h4
          · exact Or.inr ⟨u, List.mem_cons_of_mem _ hu, hcu⟩

lemma not_dbl_prepend : ∀ (w rest : Str), (∀ c ∈ w, ¬ c = ' ') →
    ¬ ([' ', ' '] <:+: rest) → ¬ ([' ', ' '] <:+: (w ++ rest)) := by
  intro w
  induction w with
  | nil => intro rest _ hrest; simpa using hrest
  | cons a w' ih =>
    intro rest hw hrest hinf
    rw [List.cons_append] at hinf
    rcases List.infix_cons_iff.mp hinf with hpre | htail
    · have h1 := (List.cons_prefix_cons.mp hpre).1
      exact hw a (List.mem_cons_self a w') h1.symm
    · exact ih rest (fun c hc => hw c (List.mem_cons_of_mem _ hc)) hrest htail

lemma joinSpace_not_dbl : ∀ (ll : List Str), goodWords ll →
    ¬ ([' ', ' '] <:+: joinSpace ll) := by
  intro ll
  induction ll with
  | nil =>
    intro _ hinf
    have := hinf.length_le
    simp [joinSpace] at this
  | cons w ws ih =>
    intro h
    have hw := h w (List.mem_cons_self w ws)
    have hwchars : ∀ c ∈ w, ¬ c = ' ' := by
      intro c hc he
      have h2 := hw.2 c hc
      rw [he] at h2
      exact absurd h2 (by decide)
    have hgood' : goodWords ws := fun u hu => h u (List.mem_cons_of_mem _ hu)
    cases ws with
    | nil =>
      have h3 := not_dbl_prepend w [] hwchars
        (fun hx => by have := hx.length_le; simp at this)
      simpa using h3
    | cons x xs =>
      rw [joinSpace_cons_cons]
      apply not_dbl_prepend w (' ' :: joinSpace (x :: xs)) hwchars
      intro hinf
      rcases List.infix_cons_iff.mp hinf with hpre | htail
      · have h2 := (List.cons_prefix_cons.mp hpre).2
        obtain ⟨u, hu⟩ := h2
        have hhead : (joinSpace (x :: xs)).head? = some ' ' := by rw [← hu]; rfl
        have h3 := joinSpace_head_not_ws hgood' ' ' hhead
        exact absurd h3 (by decide)
      · exact ih hgood' htail

/-! ## Lemmas about `pyStrip` -/

lemma head?_of_prefix {l₁ l₂ : Str} (h : l₁ <+: l₂) {c : Char} (hc : l₁.head? = some c) :
    l₂.head? = some c := by
  obtain ⟨t, rfl⟩ := h
  cases l₁ with
  | nil => simp at hc
  | cons a u => simpa using hc

lemma head?_dropWhile_not {p : Char → Bool} : ∀ {s : Str} {c : Char},
    (s.dropWhile p).head? = some c → p c = false := by
  intro s
  induction s with
  | nil => intro c hc; simp at hc
  | cons a t ih =>
    intro c hc
    rw [List.dropWhile_cons] at hc
    by_cases hp : p a = true
    · rw [if_pos hp] at hc; exact ih hc
    · rw [if_neg hp] at hc
      have hac : a = c := by simpa using hc
      subst hac
      simpa using hp

lemma stripLeft_suffix (s : Str) : stripLeft s <:+ s := List.dropWhile_suffix isPyWS

lemma stripRight_prefix_self (s : Str) : stripRight s <+: s := by
  have h : s.reverse.dropWhile isPyWS <:+ s.reverse := List.dropWhile_suffix isPyWS
  have h2 := h.reverse
  rwa [List.reverse_reverse] at h2

lemma pyStrip_infix_self (s : Str) : pyStrip s <:+: s :=
  ((stripRight_prefix_self (stripLeft s)).isInfix).trans ((stripLeft_suffix s).isInfix)

lemma pyStrip_length_le (s : Str) : (pyStrip s).length ≤ s.length :=
  (pyStrip_infix_self s).length_le

lemma mem_of_mem_pyStrip {s : Str} {c : Char} (h : c ∈ pyStrip s) : c ∈ s :=
  (pyStrip_infix_self s).sublist.subset h

lemma pyStrip_head_not_ws {s : Str} {c : Char} (h : (pyStrip s).head? = some c) :
    isPyWS c = false := by
  unfold pyStrip at h
  have h2 : (stripLeft s).head? = some c := head?_of_prefix (stripRight_prefix_self _) h
  exact head?_dropWhile_not h2

lemma pyStrip_last_not_ws {s : Str} {c : Char} (h : (pyStrip s).getLast? = some c) :
    isPyWS c = false := by
  unfold pyStrip stripRight at h
  rw [List.getLast?_reverse] at h
  exact head?_dropWhile_not h

lemma pyStrip_eq_self_of_ends {s : Str}
    (hh : ∀ c, s.head? = some c → isPyWS c = false)
    (hl : ∀ c, s.getLast? = some c → isPyWS c = false) : pyStrip s = s := by
  have h1 : stripLeft s = s := by
    cases s with
    | nil => rfl
    | cons a t =>
      have := hh a rfl
      show (a :: t).dropWhile isPyWS = a :: t
      rw [List.dropWhile_cons, if_neg (by simp [this])]
  have h2 : stripRight s = s := by
    unfold stripRight
    cases hr : s.reverse with
    | nil =>
      have hs : s = [] := List.reverse_eq_nil_iff.mp hr
      subst hs
      rfl
    | cons a t =>
      have ha : s.getLast? = some a := by rw [← List.head?_reverse, hr]; rfl
      have := hl a ha
      rw [List.dropWhile_cons, if_neg (by simp [this]), ← hr, List.reverse_reverse]
  unfold pyStrip
  rw [h1, h2]

lemma pyStrip_head?_of_head {s : Str} {c : Char} (hc : s.head? = some c)
    (hw : isPyWS c = false) : (pyStrip s).head? = some c ∧ pyStrip s ≠ [] := by
  cases s with
  | nil => simp at hc
  | cons a t =>
    have hac : a = c := by simpa using hc
    subst hac
    have h1 : stripLeft (a :: t) = a :: t := by
      show (a :: t).dropWhile isPyWS = a :: t
      rw [List.dropWhile_cons, if_neg (by simp [hw])]
    have hne : stripRight (a :: t) ≠ [] := by
      intro hE
      have hE2 : (a :: t).reverse.dropWhile isPyWS = [] := List.reverse_eq_nil_iff.mp hE
      have hmem := List.dropWhile_eq_nil_iff.mp hE2 a (by simp)
      exact absurd hmem (by simp [hw])
    have hhead : (stripRight (a :: t)).head? = some a := by
      obtain ⟨u, hu⟩ := stripRight_prefix_self (a :: t)
      cases hS : stripRight (a :: t) with
      | nil => exact absurd hS hne
      | cons b v =>
        rw [hS, List.cons_append] at hu
        have hba : b = a := (List.cons.injEq _ _ _ _).mp hu |>.1
        rw [hba]
        rfl
    unfold pyStrip
    rw [h1]
    exact ⟨hhead, hne⟩

lemma preClean_chars {f : Str} {c : Char} (h : c ∈ preClean f) :
    c ∉ invalidFileChars := by
  unfold preClean at h
  rcases mem_expandEllipsis h with rfl | h1
  · decide
  rcases mem_replaceAllChar h1 with rfl | h2
  · decide
  rcases mem_replaceAllChar h2 with rfl | h3
  · decide
  rcases mem_replaceAllChar h3 with rfl | h4
  · decide
  exact (mem_removeInvalid h4).2

lemma preClean_all_ws {f : Str} (h : ∀ c ∈ f, c ∈ invalidFileChars ∨ isPyWS c = true) :
    ∀ c ∈ preClean f, isPyWS c = true := by
  have h1 : ∀ c ∈ removeInvalid f, isPyWS c = true := by
    intro c hc
    obtain ⟨hcf, hcinv⟩ := mem_removeInvalid hc
    rcases h c hcf with h2 | h2
    · exact absurd h2 hcinv
    · exact h2
  have e1 : replaceAllChar '–' '-' (removeInvalid f) = removeInvalid f :=
    replaceAllChar_eq_self (fun hm => absurd (h1 '–' hm) (by decide))
  have e2 : replaceAllChar '—' '-' (removeInvalid f) = removeInvalid f :=
    replaceAllChar_eq_self (fun hm => absurd (h1 '—' hm) (by decide))
  have e3 : replaceAllChar '"' '\'' (removeInvalid f) = removeInvalid f :=
    replaceAllChar_eq_self (fun hm => absurd (h1 '"' hm) (by decide))
  have e4 : expandEllipsis (removeInvalid f) = removeInvalid f :=
    expandEllipsis_eq_self (fun hm => absurd (h1 '…' hm) (by decide))
  unfold preClean
  rw [e1, e2, e3, e4]
  exact h1

/-! ## Claim C10: sanitize_filename invariants -/

/-- C10: for every input string, `sanitize_filename` returns a non-empty
string of length at most 200, containing none of the characters
`< > : " / \ | ? *`, with no leading or trailing whitespace and no two
consecutive spaces; and an input consisting only of invalid characters or
whitespace yields `"video"`. -/
theorem c10_sanitize_filename : ∀ f : Str,
    sanitizeFilename f ≠ []
    ∧ (sanitizeFilename f).length ≤ 200
    ∧ (∀ c ∈ sanitizeFilename f, c ∉ invalidFileChars)
    ∧ (∀ c, (sanitizeFilename f).head? = some c → isPyWS c = false)
    ∧ (∀ c, (sanitizeFilename f).getLast? = some c → isPyWS c = false)
    ∧ ¬ ([' ', ' '] <:+: sanitizeFilename f)
    ∧ ((∀ c ∈ f, c ∈ invalidFileChars ∨ isPyWS c = true) →
        sanitizeFilename f = "video".toList) := by
  intro f
  have hgood : goodWords (pySplit (preClean f)) :=
    fun w hw => pySplitAux_words (preClean f) [] (by simp) w hw
  set J := joinSpace (pySplit (preClean f)) with hJdef
  have hJhead : ∀ c, J.head? = some c → isPyWS c = false := joinSpace_head_not_ws hgood
  have hJlast : ∀ c, J.getLast? = some c → isPyWS c = false :=
    joinSpace_last_not_ws _ hgood
  have hJdbl : ¬ ([' ', ' '] <:+: J) := joinSpace_not_dbl _ hgood
  have hJmem : ∀ c ∈ J, c = ' ' ∨ c ∈ preClean f := by
    intro c hc
    rcases joinSpace_mem _ c hc with h1 | ⟨w, hw, hcw⟩
    · exact Or.inl h1
    · rcases pySplitAux_subset (preClean f) [] w hw c hcw with h2 | h2
      · exact Or.inr h2
      · simp at h2
  have hJchars : ∀ c ∈ J, c ∉ invalidFileChars := by
    intro c hc
    rcases hJmem c hc with rfl | h2
    · decide
    · exact preClean_chars h2
  have hstripJ : pyStrip J = J := pyStrip_eq_self_of_ends hJhead hJlast
  have hVid : (∀ c ∈ f, c ∈ invalidFileChars ∨ isPyWS c = true) → J = [] := by
    intro hall
    have hsplit : pySplit (preClean f) = [] := pySplitAux_all_ws _ (preClean_all_ws hall)
    rw [hJdef, hsplit]
    rfl
  by_cases hJnil : J = []
  · have hresult : sanitizeFilename f = "video".toList := by
      unfold sanitizeFilename
      rw [← hJdef, hJnil]
      decide
    rw [hresult]
    exact ⟨by decide, by decide, by decide, by decide, by decide, by decide,
      fun _ => rfl⟩
  · have hbase : sanitizeFilename f =
        if 200 < J.length then pyStrip (J.take 200) else J := by
      unfold sanitizeFilename
      rw [← hJdef]
      dsimp only
      rw [hstripJ, if_neg hJnil]
    by_cases hlen : 200 < J.length
    · rw [if_pos hlen] at hbase
      obtain ⟨j0, J', hJcons⟩ := List.exists_cons_of_ne_nil hJnil
      have hj0 : isPyWS j0 = false := hJhead j0 (by rw [hJcons]; rfl)
      have hheadtake : (J.take 200).head? = some j0 := by rw [hJcons]; rfl
      obtain ⟨hheadres, hneres⟩ := pyStrip_head?_of_head hheadtake hj0
      rw [hbase]
      refine ⟨hneres, ?_, ?_, ?_, ?_, ?_, ?_⟩
      · calc (pyStrip (J.take 200)).length ≤ (J.take 200).length := pyStrip_length_le _
          _ ≤ 200 := by rw [List.length_take]; exact min_le_left _ _
      · intro c hc
        exact hJchars c (List.take_subset 200 J (mem_of_mem_pyStrip hc))
      · intro c hc
        rw [hheadres] at hc
        have hj0c : j0 = c := by simpa using hc
        rw [← hj0c]
        exact hj0
      · intro c hc
        exact pyStrip_last_not_ws hc
      · intro hinf
        exact hJdbl ((hinf.trans (pyStrip_infix_self _)).trans (List.take_prefix 200 J).isInfix)
      · intro hall
        exact absurd (hVid hall) hJnil
    · rw [if_neg hlen] at hbase
      rw [hbase]
      exact ⟨hJnil, by omega, hJchars, hJhead, hJlast, hJdbl,
        fun hall => absurd (hVid hall) hJnil⟩

/-- C10 witness: the sanitizer invariants applied at the concrete inputs
`"  My <cool> video:  part 2???  "` (whose head and last character exist and
whose conditional hypotheses are discharged) and `" <>*? "`. -/
theorem c10_sanitize_filename_witness :
    sanitizeFilename ("  My <cool> video:  part 2???  ".toList) ≠ []
    ∧ (∀ c, (sanitizeFilename ("  My <cool> video:  part 2???  ".toList)).head? = some c →
        isPyWS c = false)
    ∧ sanitizeFilename (" <>*? ".toList) = "video".toList := by
  refine ⟨(c10_sanitize_filename _).1, (c10_sanitize_filename _).2.2.2.1, ?_⟩
  exact (c10_sanitize_filename (" <>*? ".toList)).2.2.2.2.2.2 (by decide)

/-! ## Claim C7: URL validation is exactly the regex match -/

/-- C7: `is_valid_youtube_url url` is `True` exactly when the stripped url
matches (anchored at the start, case-insensitively) at least one of the six
`YOUTUBE_PATTERNS`; in particular it is `False` for an empty or
whitespace-only string. -/
theorem c7_url_validation :
    (∀ url : Str, isValidYoutubeUrl url = true ↔
        ∃ m ∈ youtubePatterns, m (pyStrip url) = true)
    ∧ (∀ url : Str, (∀ c ∈ url, isPyWS c = true) → isValidYoutubeUrl url = false) := by
  have hnone : ∀ m ∈ youtubePatterns, m [] = false := by decide
  constructor
  · intro url
    unfold isValidYoutubeUrl
    by_cases h0 : url = []
    · rw [if_pos h0]
      refine iff_of_false (by simp) ?_
      rintro ⟨m, hm, hmt⟩
      have hurlnil : pyStrip url = [] := by rw [h0]; rfl
      rw [hurlnil, hnone m hm] at hmt
      simp at hmt
    · rw [if_neg h0]
      dsimp only
      by_cases h1 : pyStrip url = []
      · rw [if_pos h1]
        refine iff_of_false (by simp) ?_
        rintro ⟨m, hm, hmt⟩
        rw [h1, hnone m hm] at hmt
        simp at hmt
      · rw [if_neg h1]
        simp [List.any_eq_true]
  · intro url hws
    have h1 : pyStrip url = [] := by
      unfold pyStrip stripLeft
      rw [List.dropWhile_eq_nil_iff.mpr hws]
      rfl
    unfold isValidYoutubeUrl
    by_cases h0 : url = []
    · rw [if_pos h0]
    · rw [if_neg h0]
      dsimp only
      rw [if_pos h1]

/-- C7 witness: the equivalence applied at a concrete watch URL, and the
whitespace clause applied at `"   "`. -/
theorem c7_url_validation_witness :
    isValidYoutubeUrl ("   ".toList) = false ∧
    (isValidYoutubeUrl ("https://www.youtube.com/watch?v=dQw4w9WgXcQ".toList) = true ↔
      ∃ m ∈ youtubePatterns,
        m (pyStrip ("https://www.youtube.com/watch?v=dQw4w9WgXcQ".toList)) = true) :=
  ⟨c7_url_validation.2 ("   ".toList) (by decide), c7_url_validation.1 _⟩

/-! ## Claims C8 and C9: the preset table and its shallow copy -/

lemma getA_setA {β : Type} (k : String) (v : β) :
    ∀ l : List (String × β), getA k (setA k v l) = some v := by
  intro l
  induction l with
  | nil => simp [setA, getA]
  | cons p t ih =>
    obtain ⟨a, b⟩ := p
    by_cases hak : a = k
    · rw [setA, if_pos hak, getA, if_pos hak]
    · rw [setA, if_neg hak, getA, if_neg hak]
      exact ih

/-- C8: `get_preset` is the static mapping of config.py's `PRESETS`: each of
the six (format-class, quality-tier) pairs yields exactly the recorded
(format, video_quality, audio_quality) triple, and every pair outside that
domain yields `None`. -/
theorem c8_preset_mapping :
    getPresetDefault "Video" "High" =
      some ⟨"mp4", "Highest Video Quality", "Highest Audio Quality"⟩
    ∧ getPresetDefault "Video" "Standard" = some ⟨"mp4", "720p", "192kbps"⟩
    ∧ getPresetDefault "Video" "Low" = some ⟨"mp4", "240p", "64kbps"⟩
    ∧ getPresetDefault "Audio" "High" = some ⟨"mp3", "---", "Highest Audio Quality"⟩
    ∧ getPresetDefault "Audio" "Standard" = some ⟨"mp3", "---", "192kbps"⟩
    ∧ getPresetDefault "Audio" "Low" = some ⟨"mp3", "---", "64kbps"⟩
    ∧ (∀ ft q : String, ¬ (ft = "Video" ∨ ft = "Audio") →
        getPresetDefault ft q = none)
    ∧ (∀ ft q : String, ¬ (q = "High" ∨ q = "Standard" ∨ q = "Low") →
        getPresetDefault ft q = none) := by
  refine ⟨rfl, rfl, rfl, rfl, rfl, rfl, ?_, ?_⟩
  · intro ft q hft
    push_neg at hft
    have h1 : ¬ ("Video" = ft) := fun e => hft.1 e.symm
    have h2 : ¬ ("Audio" = ft) := fun e => hft.2 e.symm
    simp [getPresetDefault, getA, h1, h2]
  · intro ft q hq
    push_neg at hq
    obtain ⟨h1, h2, h3⟩ := hq
    have k1 : ¬ ("High" = q) := fun e => h1 e.symm
    have k2 : ¬ ("Standard" = q) := fun e => h2 e.symm
    have k3 : ¬ ("Low" = q) := fun e => h3 e.symm
    by_cases hv : "Video" = ft
    · subst hv
      simp [getPresetDefault, getA, videoPresets, k1, k2, k3]
    · by_cases ha : "Audio" = ft
      · subst ha
        simp [getPresetDefault, getA, audioPresets, k1, k2, k3]
      · simp [getPresetDefault, getA, hv, ha]

/-- C8 witness: the out-of-domain clauses applied at `("Gif", "Ultra")`. -/
theorem c8_preset_mapping_witness :
    getPresetDefault "Gif" "High" = none ∧ getPresetDefault "Video" "Ultra" = none :=
  ⟨c8_preset_mapping.2.2.2.2.2.2.1 "Gif" "High" (by decide),
   c8_preset_mapping.2.2.2.2.2.2.2 "Video" "Ultra" (by decide)⟩

/-- C9: the manager's `PRESETS.copy()` is shallow, so `add_preset` on a
format type already present in the defaults mutates the shared inner dict:
after `add_preset(ft, q, config)` followed by `reset_to_defaults()`,
`get_preset(ft, q)` still returns `config`, and a freshly constructed
`PresetManager` observes the same added preset. -/
theorem c9_preset_shallow_copy :
    ∀ (ft q : String) (config : PresetConfig), (ft = "Video" ∨ ft = "Audio") →
      getPresetH (addPresetH initHeap presetManagerInit ft q config).1
          presetManagerInit ft q = some config
      ∧ getPresetH (addPresetH initHeap presetManagerInit ft q config).1
          presetsGlobal ft q = some config := by
  intro ft q config hft
  rcases hft with rfl | rfl
  · constructor
    · show getA q (setA q config videoPresets) = some config
      exact getA_setA q config videoPresets
    · show getA q (setA q config videoPresets) = some config
      exact getA_setA q config videoPresets
  · constructor
    · show getA q (setA q config audioPresets) = some config
      exact getA_setA q config audioPresets
    · show getA q (setA q config audioPresets) = some config
      exact getA_setA q config audioPresets

/-- C9 witness: the shallow-copy leak applied at
`add_preset("Video", "Ultra", {mkv, 4K, 320kbps})`. -/
theorem c9_preset_shallow_copy_witness :
    getPresetH (addPresetH initHeap presetManagerInit "Video" "Ultra"
        ⟨"mkv", "4K", "320kbps"⟩).1 presetManagerInit "Video" "Ultra" =
      some ⟨"mkv", "4K", "320kbps"⟩
    ∧ getPresetH (addPresetH initHeap presetManagerInit "Video" "Ultra"
        ⟨"mkv", "4K", "320kbps"⟩).1 presetsGlobal "Video" "Ultra" =
      some ⟨"mkv", "4K", "320kbps"⟩ :=
  c9_preset_shallow_copy "Video" "Ultra" ⟨"mkv", "4K", "320kbps"⟩ (Or.inl rfl)

/-! ## Claim C1: classification of stdout lines -/

/-- C1, counterexample to the claim as stated: the branches of
`_process_download_line` are an `elif` chain, so a line that satisfies
several of the claim's conditions fires only the first matching branch.
`"ffmpeg Merging"` contains `"Merging"`, so the claim requires an
`on_progress` call with percent 95 — but the line also contains `"ffmpeg"`,
so the code fires only the 90-percent ffmpeg branch. -/
theorem c1_progress_line_counterexample :
    (("Merging".toList) <:+: ("ffmpeg Merging".toList))
    ∧ (("ffmpeg".toList) <:+: lowerStr ("ffmpeg Merging".toList))
    ∧ progressEvents (processDownloadLine ("ffmpeg Merging".toList) false none none) =
        [((90 : ℚ), "ffmpeg Merging".toList, false)]
    ∧ ¬ (((95 : ℚ), "ffmpeg Merging".toList, false) ∈
        progressEvents (processDownloadLine ("ffmpeg Merging".toList) false none none)) := by
  decide

/-- C1 (amended): the `elif` chain gives the branches priority.  A line
containing `'[download]'` whose first percentage token
`(\d+(?:\.\d+)?)%` has value `q` fires exactly `on_progress(q, line)`; a
line without `'[download]'` that starts with `"frame="` or contains
`"ffmpeg"` case-insensitively fires exactly `on_progress(90, line)`; a
line matching neither of those that contains `"Merging"` (case-sensitively)
or `"merger"` case-insensitively fires exactly `on_progress(95, line)`. -/
theorem c1_progress_line_amended (line : Str) (isAudio : Bool)
    (startSeconds endSeconds : Option Nat) :
    ((("[download]".toList) <:+: line) → ∀ q, searchPercent line = some q →
      progressEvents (processDownloadLine line isAudio startSeconds endSeconds) =
        [(q, line, isAudio)])
    ∧ (¬ (("[download]".toList) <:+: line) →
        ((("frame=".toList) <+: line) ∨ (("ffmpeg".toList) <:+: lowerStr line)) →
        progressEvents (processDownloadLine line isAudio startSeconds endSeconds) =
          [((90 : ℚ), line, isAudio)])
    ∧ (¬ (("[download]".toList) <:+: line) →
        ¬ ((("frame=".toList) <+: line) ∨ (("ffmpeg".toList) <:+: lowerStr line)) →
        ((("Merging".toList) <:+: line) ∨ (("merger".toList) <:+: lowerStr line)) →
        progressEvents (processDownloadLine line isAudio startSeconds endSeconds) =
          [((95 : ℚ), line, isAudio)]) := by
  refine ⟨?_, ?_, ?_⟩
  · intro hdl q hq
    unfold processDownloadLine
    rw [if_pos hdl, hq]
    rfl
  · intro hdl hfr
    unfold processDownloadLine
    rw [if_neg hdl, if_pos hfr]
    by_cases hs : (startSeconds.isSome ∨ endSeconds.isSome : Prop)
    · rw [if_pos hs]
      rfl
    · rw [if_neg hs]
      rfl
  · intro hdl hfr hm
    unfold processDownloadLine
    rw [if_neg hdl, if_neg hfr, if_pos hm]
    rfl

/-- C1 witness: the amended classification applied at the concrete lines
`"[download]  42% of 10MiB"`, `"frame= 100 fps=0"` and
`"Merging formats into out.mp4"`. -/
theorem c1_progress_line_witness :
    progressEvents (processDownloadLine ("[download]  42% of 10MiB".toList) false none none) =
      [((42 : ℚ), "[download]  42% of 10MiB".toList, false)]
    ∧ progressEvents (processDownloadLine ("frame= 100 fps=0".toList) false (some 1) none) =
      [((90 : ℚ), "frame= 100 fps=0".toList, false)]
    ∧ progressEvents (processDownloadLine ("Merging formats into out.mp4".toList) true none none) =
      [((95 : ℚ), "Merging formats into out.mp4".toList, true)] := by
  refine ⟨?_, ?_, ?_⟩
  · exact ((c1_progress_line_amended ("[download]  42% of 10MiB".toList) false none none).1
      (by decide) ((42 : ℚ)) (by decide))
  · exact ((c1_progress_line_amended ("frame= 100 fps=0".toList) false (some 1) none).2.1
      (by decide) (Or.inl (by decide)))
  · exact ((c1_progress_line_amended ("Merging formats into out.mp4".toList) true none none).2.2
      (by decide) (by decide) (Or.inl (by decide)))

/-! ## Claim C2: the progress bar value is clamped to [0, 100] -/

/-- C2: for every panel state, percent, status line and audio flag,
`set_progress` stores `max(0, min(percent, 100))` into the progress bar, so
the stored value always lies in `[0, 100]`. -/
theorem c2_progress_clamped (st : ProgressPanelState) (percent : ℚ)
    (statusLine : Str) (isAudio : Bool) :
    (setProgress st percent statusLine isAudio).barValue = max 0 (min percent 100)
    ∧ 0 ≤ (setProgress st percent statusLine isAudio).barValue
    ∧ (setProgress st percent statusLine isAudio).barValue ≤ 100 := by
  have hval : (setProgress st percent statusLine isAudio).barValue =
      max 0 (min percent 100) := by
    unfold setProgress
    dsimp only
    split
    · rfl
    split
    · rfl
    split
    · rfl
    · rfl
  refine ⟨hval, ?_, ?_⟩
  · rw [hval]
    exact le_max_left 0 _
  · rw [hval]
    exact max_le (by norm_num) (min_le_right percent 100)

/-! ## Claim C3: the `--download-sections` arguments -/

lemma cons_append_ne_ds {a : Char} (h : ¬ a = '-') (s t : Str) :
    ¬ ((a :: s) ++ t = ("--download-sections".toList)) := by
  intro he
  rw [List.cons_append] at he
  exact h ((List.cons.injEq _ _ _ _).mp he).1

lemma getVideoFormatString_ne_ds (vf q : Str) :
    ¬ (getVideoFormatString vf q = ("--download-sections".toList)) := by
  unfold getVideoFormatString
  split
  · split
    · decide
    split
    · decide
    · decide
  · dsimp only
    split
    · exact cons_append_ne_ds (by decide) _ _
    split
    · exact cons_append_ne_ds (by decide) _ _
    · exact cons_append_ne_ds (by decide) _ _

lemma audioQualityValue_ne_ds (q : Str) :
    ¬ (audioQualityValue q = ("--download-sections".toList)) := by
  unfold audioQualityValue
  split
  · decide
  split
  · decide
  split
  · decide
  split
  · decide
  split
  · decide
  · decide

lemma not_mem_audioQualityOption (q : Str) :
    ("--download-sections".toList) ∉ addAudioQualityOption q := by
  unfold addAudioQualityOption
  split
  · intro hmem
    rcases List.mem_cons.mp hmem with h | hmem
    · exact absurd h (by decide)
    rcases List.mem_cons.mp hmem with h | hmem
    · exact audioQualityValue_ne_ds q h.symm
    · simp at hmem
  · simp

lemma not_mem_formatOptionArgs (settings : DownloadSettings) (aud : Bool)
    (ha : aud = true →
      settings.format = ("mp3".toList) ∨ settings.format = ("m4a".toList)) :
    ("--download-sections".toList) ∉ formatOptionArgs settings aud none none := by
  unfold formatOptionArgs
  rw [if_neg (by simp)]
  by_cases hA : aud = true
  · rw [if_pos hA]
    intro hmem
    rcases List.mem_append.mp hmem with h1 | h2
    · rcases ha hA with hf | hf <;> rw [hf] at h1 <;> exact absurd h1 (by decide)
    · exact not_mem_audioQualityOption _ h2
  · rw [if_neg hA]
    intro hmem
    rcases List.mem_append.mp hmem with h1 | h2
    · by_cases hq : settings.videoQuality = ("Highest Video Quality".toList)
      · rw [if_pos hq] at h1
        by_cases hm4 : settings.format = ("mp4".toList)
        · rw [if_pos hm4] at h1
          exact absurd h1 (by decide)
        · rw [if_neg hm4] at h1
          by_cases hwb : settings.format = ("webm".toList)
          · rw [if_pos hwb] at h1
            exact absurd h1 (by decide)
          · rw [if_neg hwb] at h1
            simp at h1
      · rw [if_neg hq] at h1
        rcases List.mem_append.mp h1 with h3 | h4
        · rcases List.mem_cons.mp h3 with h | h3
          · exact absurd h (by decide)
          rcases List.mem_cons.mp h3 with h | h3
          · exact getVideoFormatString_ne_ds _ _ h.symm
          · simp at h3
        · by_cases hm4 : settings.format = ("mp4".toList)
          · rw [if_pos hm4] at h4
            exact absurd h4 (by decide)
          · rw [if_neg hm4] at h4
            by_cases hwb : settings.format = ("webm".toList)
            · rw [if_pos hwb] at h4
              exact absurd h4 (by decide)
            · rw [if_neg hwb] at h4
              simp at h4
    · exact not_mem_audioQualityOption _ h2

lemma not_mem_base (y d f : Str)
    (hy : y ≠ ("--download-sections".toList))
    (hd : d ≠ ("--download-sections".toList))
    (hf : f ≠ ("--download-sections".toList)) :
    ("--download-sections".toList) ∉ baseCommandArgs y d f := by
  intro hmem
  unfold baseCommandArgs at hmem
  rcases List.mem_cons.mp hmem with h | hmem
  · exact hy h.symm
  rcases List.mem_cons.mp hmem with h | hmem
  · exact absurd h (by decide)
  rcases List.mem_cons.mp hmem with h | hmem
  · exact hd h.symm
  rcases List.mem_cons.mp hmem with h | hmem
  · exact absurd h (by decide)
  rcases List.mem_cons.mp hmem with h | hmem
  · exact hf h.symm
  exact absurd hmem (by decide)

lemma not_mem_metadata (b : Bool) :
    ("--download-sections".toList) ∉ metadataArgs b := by
  cases b <;> decide

lemma not_mem_subtitle (b : Bool) :
    ("--download-sections".toList) ∉ subtitleArgs b := by
  cases b <;> decide

lemma not_mem_outputArgs (c : Str) :
    ("--download-sections".toList) ∉ outputArgs c := by
  unfold outputArgs
  split
  · intro hmem
    rcases List.mem_cons.mp hmem with h | hmem
    · exact absurd h (by decide)
    rcases List.mem_cons.mp hmem with h | hmem
    · have hsuf : (".%(ext)s".toList) <:+ ("--download-sections".toList) :=
        ⟨sanitizeFilename c, h.symm⟩
      exact absurd hsuf (by decide)
    · simp at hmem
  · decide

lemma formatOptionArgs_sections (settings : DownloadSettings) (aud : Bool)
    (s e : Option Nat) (h : (s.isSome ∨ e.isSome : Prop)) :
    ∃ pre, formatOptionArgs settings aud s e = pre ++ timeSectionArgs s e := by
  unfold formatOptionArgs
  rw [if_pos h]
  exact ⟨_, rfl⟩

lemma infix_mid {α : Type} (A pre mid O P : List α) :
    mid <:+: ((A ++ (pre ++ mid)) ++ O) ++ P :=
  ⟨A ++ pre, O ++ P, by simp [List.append_assoc]⟩

/-- C3, counterexample to the claim as stated: when neither time bound is
set the builder adds no `--download-sections` flag, but the command still
contains that string when a settings field (here the URL, which is appended
verbatim) happens to equal it. -/
theorem c3_download_sections_counterexample :
    ("--download-sections".toList) ∈
      buildCommand
        ⟨"--download-sections".toList, "mp4".toList, "720p".toList, "192kbps".toList,
          [], [], false, false⟩
        ("C:/ffmpeg".toList) ("C:/yt-dlp".toList) ("C:/Home/Downloads".toList)
        none none :=
  List.mem_append.mpr (Or.inr (List.mem_singleton.mpr rfl))

/-- C3 (amended): if both bounds are set the command contains the
consecutive arguments `--download-sections`, `*S-E` (times rendered by
`format_seconds_to_time`); with only a start, `*S-inf`; with only an end,
`*0-E`; and with neither bound, the command contains no
`--download-sections` argument provided none of the externally supplied
strings (url, ffmpeg path, yt-dlp path, download location, default
downloads folder) equals the literal `"--download-sections"`. -/
theorem c3_download_sections_amended (settings : DownloadSettings)
    (ffmpegPath ytdlpPath homeDownloads : Str) (startSeconds endSeconds : Option Nat) :
    (∀ a b : Nat, startSeconds = some a → endSeconds = some b →
      ["--download-sections".toList,
       '*' :: (formatSecondsToTime a ++ '-' :: formatSecondsToTime b)] <:+:
        buildCommand settings ffmpegPath ytdlpPath homeDownloads startSeconds endSeconds)
    ∧ (∀ a : Nat, startSeconds = some a → endSeconds = none →
      ["--download-sections".toList,
       '*' :: (formatSecondsToTime a ++ "-inf".toList)] <:+:
        buildCommand settings ffmpegPath ytdlpPath homeDownloads startSeconds endSeconds)
    ∧ (∀ b : Nat, startSeconds = none → endSeconds = some b →
      ["--download-sections".toList, '*' :: '0' :: '-' :: formatSecondsToTime b] <:+:
        buildCommand settings ffmpegPath ytdlpPath homeDownloads startSeconds endSeconds)
    ∧ (startSeconds = none → endSeconds = none →
        settings.url ≠ ("--download-sections".toList) →
        ffmpegPath ≠ ("--download-sections".toList) →
        ytdlpPath ≠ ("--download-sections".toList) →
        settings.downloadLocation ≠ ("--download-sections".toList) →
        homeDownloads ≠ ("--download-sections".toList) →
        ("--download-sections".toList) ∉
          buildCommand settings ffmpegPath ytdlpPath homeDownloads startSeconds endSeconds) := by
  refine ⟨?_, ?_, ?_, ?_⟩
  · intro a b hs he
    subst hs
    subst he
    obtain ⟨pre, hpre⟩ :=
      formatOptionArgs_sections settings _ (some a) (some b) (by simp)
    unfold buildCommand
    dsimp only
    rw [hpre, show timeSectionArgs (some a) (some b) =
      ["--download-sections".toList,
       '*' :: (formatSecondsToTime a ++ '-' :: formatSecondsToTime b)] from rfl]
    exact infix_mid _ _ _ _ _
  · intro a hs he
    subst hs
    subst he
    obtain ⟨pre, hpre⟩ :=
      formatOptionArgs_sections settings _ (some a) none (by simp)
    unfold buildCommand
    dsimp only
    rw [hpre, show timeSectionArgs (some a) none =
      ["--download-sections".toList,
       '*' :: (formatSecondsToTime a ++ "-inf".toList)] from rfl]
    exact infix_mid _ _ _ _ _
  · intro b hs he
    subst hs
    subst he
    obtain ⟨pre, hpre⟩ :=
      formatOptionArgs_sections settings _ none (some b) (by simp)
    unfold buildCommand
    dsimp only
    rw [hpre, show timeSectionArgs none (some b) =
      ["--download-sections".toList,
       '*' :: '0' :: '-' :: formatSecondsToTime b] from rfl]
    exact infix_mid _ _ _ _ _
  · intro hs he hurl hff hyt hloc hhome
    subst hs
    subst he
    unfold buildCommand
    dsimp only
    intro hmem
    rcases List.mem_append.mp hmem with h1 | hurl1
    · rcases List.mem_append.mp h1 with h2 | hO
      · rcases List.mem_append.mp h2 with h3 | hFO
        · rcases List.mem_append.mp h3 with h4 | hS
          · rcases List.mem_append.mp h4 with hB | hM
            · have hfold :
                  (if settings.downloadLocation ≠ [] then settings.downloadLocation
                   else homeDownloads) ≠ ("--download-sections".toList) := by
                split
                · exact hloc
                · exact hhome
              exact not_mem_base ytdlpPath _ ffmpegPath hyt hfold hff hB
            · exact not_mem_metadata _ hM
          · exact not_mem_subtitle _ hS
        · exact not_mem_formatOptionArgs settings _
            (fun hA => of_decide_eq_true hA) hFO
      · exact not_mem_outputArgs _ hO
    · exact hurl (List.mem_singleton.mp hurl1).symm

/-- C3 witness: the amended theorem applied at a concrete settings object,
once with both bounds `(90, 5400)` and once with no bounds. -/
theorem c3_download_sections_witness :
    (["--download-sections".toList,
      '*' :: (formatSecondsToTime 90 ++ '-' :: formatSecondsToTime 5400)] <:+:
      buildCommand
        ⟨"https://youtu.be/abc".toList, "mp4".toList, "720p".toList, "192kbps".toList,
          [], [], false, false⟩
        ("C:/ffmpeg".toList) ("C:/yt-dlp".toList) ("C:/Home/Downloads".toList)
        (some 90) (some 5400))
    ∧ (("--download-sections".toList) ∉
      buildCommand
        ⟨"https://youtu.be/abc".toList, "mp4".toList, "720p".toList, "192kbps".toList,
          [], [], false, false⟩
        ("C:/ffmpeg".toList) ("C:/yt-dlp".toList) ("C:/Home/Downloads".toList)
        none none) := by
  constructor
  · exact (c3_download_sections_amended _ _ _ _ _ _).1 90 5400 rfl rfl
  · exact (c3_download_sections_amended _ _ _ _ _ _).2.2.2 rfl rfl (by decide) (by decide)
      (by decide) (by decide) (by decide)

/-! ## Claim C6: exit-code surfacing and cancellation -/

/-- C6: on an uncancelled run, return code 0 fires `on_success` and a
nonzero return code fires `on_error` with a message containing that code;
on cancellation the wait path fires neither; `terminate_process` always
terminates a running child, kills it exactly when it is still running after
the grace-period polls, and does not kill one that has exited. -/
theorem c6_exit_code_and_cancel (returncode : Int) (exitedAtPoll : Nat → Bool) :
    (finalizeDownload true 0 = [DLEvent.onSuccess])
    ∧ (returncode ≠ 0 →
        finalizeDownload true returncode = [DLEvent.onError (downloadFailMsg returncode)]
        ∧ intToStr returncode <:+: downloadFailMsg returncode)
    ∧ (finalizeDownload false returncode = [])
    ∧ (exitedAtPoll 0 = false →
        ProcAction.terminate ∈ terminateProcessActions exitedAtPoll)
    ∧ (exitedAtPoll 0 = false →
        ((List.range 10).any fun i => exitedAtPoll (i + 1)) = false →
        exitedAtPoll 11 = false →
        terminateProcessActions exitedAtPoll = [ProcAction.terminate, ProcAction.kill])
    ∧ (exitedAtPoll 0 = false → exitedAtPoll 11 = true →
        ProcAction.kill ∉ terminateProcessActions exitedAtPoll) := by
  refine ⟨rfl, ?_, rfl, ?_, ?_, ?_⟩
  · intro h
    refine ⟨?_, ?_⟩
    · unfold finalizeDownload
      rw [if_neg (by simp), if_neg h]
    · exact List.IsSuffix.isInfix ⟨("Download failed with return code ".toList), rfl⟩
  · intro h0
    unfold terminateProcessActions
    rw [if_neg (by simp [h0])]
    split
    · exact List.mem_cons_self _ _
    · exact List.mem_cons_self _ _
  · intro h0 hloop h11
    unfold terminateProcessActions
    rw [if_neg (by simp [h0]), if_neg (by simp [hloop, h11])]
  · intro h0 h11
    unfold terminateProcessActions
    rw [if_neg (by simp [h0]), if_pos (by simp [h11])]
    decide

/-- C6 witness: return code 2 with a never-exiting child and the all-false
poll trace. -/
theorem c6_exit_code_and_cancel_witness :
    (finalizeDownload true 2 = [DLEvent.onError (downloadFailMsg 2)]
      ∧ intToStr 2 <:+: downloadFailMsg 2)
    ∧ ProcAction.terminate ∈ terminateProcessActions (fun _ => false)
    ∧ terminateProcessActions (fun _ => false) = [ProcAction.terminate, ProcAction.kill]
    ∧ ProcAction.kill ∉ terminateProcessActions (fun k => decide (0 < k)) := by
  refine ⟨?_, ?_, ?_, ?_⟩
  · exact (c6_exit_code_and_cancel 2 (fun _ => false)).2.1 (by decide)
  · exact (c6_exit_code_and_cancel 2 (fun _ => false)).2.2.2.1 rfl
  · exact (c6_exit_code_and_cancel 2 (fun _ => false)).2.2.2.2.1 rfl (by decide) rfl
  · exact (c6_exit_code_and_cancel 2 (fun k => decide (0 < k))).2.2.2.2.2 (by decide) (by decide)
